import Mathlib

/-!
Verification development for the WebGLNode graph-to-shader compiler.

The definitions below are a shallow embedding of the TypeScript sources:

* `src/domain/value-objects/SocketType.ts`, `src/domain/entities/Socket.ts`,
  `src/domain/entities/Node.ts`, `Connection.ts`, `NodeGraph.ts` — the graph model;
* `src/infrastructure/shader/WGSLGenerator.ts` and the GLSL generator
  (`GLSLGenerator.ts`) — the two shader emitters.  The two generators are
  structurally identical except for literal/template syntax, so the shared
  algorithm (`evalNode` / `evalInputsF` / `emitOutputs`) is written once and
  parameterised by a `Backend` record holding the per-language formatting
  functions; `wgslBackend` and `glslBackend` instantiate it with the exact
  text fragments of the two source files.
* `CreateConnectionUseCase.execute` (the NodeGraph-based variant) and
  `Connection.create` / `Socket.canConnectTo` — the connection operations.

Modelling conventions:
* JavaScript `Map` objects are association lists (`jsMapSet` implements
  `Map.set`'s replace-in-place / append-at-end semantics, preserving the
  `values()` iteration order of the runtime);
* JS numbers stored in node values are modelled as `Int`.  Every number the
  claims quantify over is integral, and `String(n)` for an integral double in
  the non-exponential range is exactly the decimal representation that
  `jsNumToString` computes;
* code paths on which the TypeScript program throws a `TypeError`
  (`colorValue[0].toFixed(4)` applied to a non-array or a too-short array
  stored under `_color`, and `definition.outputs[0]` being absent for a
  color-picker definition) are modelled by the evaluator returning `none`;
* strings write a literal brace as the escape `\x7b` / `\x7d`.
-/

namespace WebGLNode

/-- SocketType union from `src/types/index.ts`:
`'float' | 'vec2' | 'vec3' | 'vec4' | 'color' | 'sampler' | 'texture2d'`. -/
inductive SocketType where
  | float | vec2 | vec3 | vec4 | color | sampler | texture2d
deriving DecidableEq

/-- SocketDirection union: `'input' | 'output'`. -/
inductive SocketDirection where
  | input | output
deriving DecidableEq

/-- A stored node value: `number | number[]` with numbers modelled as `Int`. -/
inductive JSVal where
  | num (n : Int)
  | arr (l : List Int)
deriving DecidableEq

/-- Socket entity (`src/domain/entities/Socket.ts`), ids flattened to strings. -/
structure Socket where
  id : String
  nodeId : String
  name : String
  type : SocketType
  direction : SocketDirection
  defaultValue : Option JSVal := none
deriving DecidableEq

/-- Node entity (`src/domain/entities/Node.ts`); `values` is the
`Record<string, number | number[]>` of stored input values. -/
structure Node where
  id : String
  definitionId : String
  inputs : List Socket
  outputs : List Socket
  values : List (String × JSVal)
deriving DecidableEq

/-- `Node.getValue(name)`: property lookup in the `_values` record. -/
def Node.getValue (n : Node) (name : String) : Option JSVal :=
  (n.values.find? (fun p => p.1 == name)).map (fun p => p.2)

/-- Connection entity (`src/domain/entities/Connection.ts`), ids flattened. -/
structure Connection where
  id : String
  fromNodeId : String
  fromSocketId : String
  toNodeId : String
  toSocketId : String
deriving DecidableEq

/-! ### JavaScript `Map` and string helpers -/

/-- `Map.set(k, v)`: replace in place if the key exists, else append. -/
def jsMapSet {α : Type} (m : List (String × α)) (k : String) (v : α) :
    List (String × α) :=
  if (m.find? (fun p => p.1 == k)).isSome then
    m.map (fun p => if p.1 == k then (k, v) else p)
  else m ++ [(k, v)]

/-- `Map.get(k)`. -/
def jsMapGet {α : Type} (m : List (String × α)) (k : String) : Option α :=
  (m.find? (fun p => p.1 == k)).map (fun p => p.2)

/-- `Array.from(map.values())`, in key-insertion order. -/
def jsMapValues {α : Type} (m : List (String × α)) : List α :=
  m.map (fun p => p.2)

/-- `Map.delete(k)`. -/
def jsMapDelete {α : Type} (m : List (String × α)) (k : String) :
    List (String × α) :=
  m.filter (fun p => p.1 != k)

/-- Build a `Map` from a list by repeated `Map.set`, as both generators do
with `nodesMap.set(node.id.value, node)`. -/
def jsMapFromList {α : Type} (key : α → String) (l : List α) :
    List (String × α) :=
  l.foldl (fun m x => jsMapSet m (key x) x) []

/-- Decimal digit character (digits of a base-10 expansion). -/
def digitToChar (d : Nat) : Char :=
  match d with
  | 0 => '0' | 1 => '1' | 2 => '2' | 3 => '3' | 4 => '4'
  | 5 => '5' | 6 => '6' | 7 => '7' | 8 => '8' | _ => '9'

/-- Decimal digits of a natural number, most significant first (the fuel is
an upper bound on the number of digits; `natToChars` supplies a sufficient
one). -/
def natToCharsAux : Nat → Nat → List Char
  | 0, m => [digitToChar m]
  | fuel + 1, m =>
    if m < 10 then [digitToChar m]
    else natToCharsAux fuel (m / 10) ++ [digitToChar (m % 10)]

/-- Decimal digits of a natural number, most significant first. -/
def natToChars (m : Nat) : List Char :=
  natToCharsAux m m

/-- `String(n)` for an integral JS number in the non-exponential range:
its plain decimal representation. -/
def jsNumToString (n : Int) : String :=
  if n < 0 then String.mk ('-' :: natToChars n.natAbs)
  else String.mk (natToChars n.natAbs)

/-- `n.toFixed(4)` for an integral JS number: decimal representation followed
by `".0000"`. -/
def jsToFixed4 (n : Int) : String :=
  jsNumToString n ++ ".0000"

/-- JS `||` on an optionally-present string: an absent or empty (falsy)
string yields the default. -/
def jsOrD (o : Option String) (d : String) : String :=
  match o with
  | some s => if s == "" then d else s
  | none => d

/-- `s.includes('.')` for a single-character needle. -/
def jsIncludesDot (s : String) : Bool :=
  s.data.contains '.'

/-- Remove the leftmost occurrence of `node_` from a character list. -/
def stripFirstNodeAux : List Char → List Char
  | 'n' :: 'o' :: 'd' :: 'e' :: '_' :: rest => rest
  | c :: rest => c :: stripFirstNodeAux rest
  | [] => []

/-- `id.replace('node_', '')` — a string pattern replaces only the first
occurrence in JavaScript. -/
def stripNodeUnderscore (s : String) : String :=
  String.mk (stripFirstNodeAux s.data)

/-- Replace every (non-overlapping, leftmost-first) occurrence of the
placeholder token in a character list by the identifier. -/
def replaceIdAux (ident : List Char) : List Char → List Char
  | '\x7b' :: '\x7b' :: 'i' :: 'd' :: '\x7d' :: '\x7d' :: rest =>
      ident ++ replaceIdAux ident rest
  | c :: rest => c :: replaceIdAux ident rest
  | [] => []

/-- `template.replace(/\x7b\x7bid\x7d\x7d/g, ident)` — the global regex
replaces every occurrence of the placeholder. -/
def instantiateTemplate (template ident : String) : String :=
  String.mk (replaceIdAux ident.data template.data)

/-- `name.toLowerCase()` (ASCII case folding, as in the socket names). -/
def jsToLowerCase (s : String) : String :=
  String.mk (s.data.map Char.toLower)

/-! ### Literal / value formatters (`getDefaultValue` of each generator) -/

/-- `WGSLGenerator.typeToWGSL`. -/
def typeToWGSL (t : SocketType) : String :=
  match t with
  | .float => "f32"
  | .vec2 => "vec2f"
  | .vec3 => "vec3f"
  | .vec4 => "vec4f"
  | .color => "vec3f"
  | _ => "f32"

/-- `GLSLGenerator.typeToGLSL` (no `vec2`/`vec4` cases; they hit the default). -/
def typeToGLSL (t : SocketType) : String :=
  match t with
  | .float => "float"
  | .vec3 => "vec3"
  | .color => "vec3"
  | _ => "float"

/-- `WGSLGenerator.getDefaultValue(type, value?)`.  Note that the non-array
branch is `String(value)` — no decimal point is appended. -/
def wgslGetDefaultValue (t : SocketType) (value : Option JSVal) : String :=
  match value with
  | some (.arr l) =>
    match t with
    | .vec2 =>
        "vec2f(" ++ jsNumToString (l.getD 0 0) ++ ", " ++
          jsNumToString (l.getD 1 0) ++ ")"
    | .vec3 | .color =>
        "vec3f(" ++ jsNumToString (l.getD 0 0) ++ ", " ++
          jsNumToString (l.getD 1 0) ++ ", " ++ jsNumToString (l.getD 2 0) ++ ")"
    | .vec4 =>
        "vec4f(" ++ jsNumToString (l.getD 0 0) ++ ", " ++
          jsNumToString (l.getD 1 0) ++ ", " ++ jsNumToString (l.getD 2 0) ++
          ", " ++ jsNumToString (l.getD 3 1) ++ ")"
    | _ => jsNumToString (l.getD 0 0)
  | some (.num n) => jsNumToString n
  | none =>
    match t with
    | .vec2 => "vec2f(0.0, 0.0)"
    | .vec3 | .color => "vec3f(0.0, 0.0, 0.0)"
    | .vec4 => "vec4f(0.0, 0.0, 0.0, 1.0)"
    | _ => "0.0"

/-- The `toFloat` helper of `GLSLGenerator.getDefaultValue`: append `".0"`
when the rendered number has no decimal point. -/
def glslToFloat (n : Int) : String :=
  let s := jsNumToString n
  if jsIncludesDot s then s else s ++ ".0"

/-- `GLSLGenerator.getDefaultValue(type, value?)`. -/
def glslGetDefaultValue (t : SocketType) (value : Option JSVal) : String :=
  match value with
  | some (.arr l) =>
    match t with
    | .vec3 | .color =>
        if l.length == 2 then
          "vec3(" ++ glslToFloat (l.getD 0 0) ++ ", " ++
            glslToFloat (l.getD 1 0) ++ ", 0.0)"
        else
          "vec3(" ++ glslToFloat (l.getD 0 0) ++ ", " ++
            glslToFloat (l.getD 1 0) ++ ", " ++ glslToFloat (l.getD 2 0) ++ ")"
    | _ => glslToFloat (l.getD 0 0)
  | some (.num n) => glslToFloat n
  | none =>
    match t with
    | .vec3 | .color => "vec3(0.0, 0.0, 0.0)"
    | _ => "0.0"

/-! ### Node definition catalog and generation context -/

/-- A socket spec of a catalog definition (`SocketDefinition` in
`src/types/index.ts`); only `name` and `type` are read by the emitters. -/
structure SocketDef where
  name : String
  type : SocketType
  default : Option JSVal := none
deriving DecidableEq

/-- A catalog entry (`NodeDefinition`).  The `code` field type differs
between the two loaders (a WGSL string for `src/nodes/NodeDefinitionLoader`,
a `\x7bwebgpu, webgl\x7d` pair or legacy string for the infrastructure one),
so it is a type parameter. -/
structure NodeDef (κ : Type) where
  inputs : List SocketDef
  outputs : List SocketDef
  code : κ
  customUI : Option String := none

/-- `ShaderCodeDefinition | string` — the `code` field of the catalog the
GLSL generator consults. -/
inductive GCode where
  | str (s : String)
  | both (webgpu webgl : String)
deriving DecidableEq

/-- One emitted statement line of the fragment body.  `owner` records which
node instance produced the line (it is not part of the generated text); the
generated document joins the `text` fields with newlines exactly as the
sources `lines.join('\n')` does. -/
structure Stmt where
  owner : String
  text : String
deriving DecidableEq

/-- The mutable part of `GenerationContext` (visited set, counter, registry);
the `nodes`/`connections` maps are read-only and live in `Fx`. -/
structure GenCtx where
  processed : Finset String
  counter : Nat
  outputVars : List (String × List (String × String))
deriving DecidableEq

/-- `processedNodes: new Set(), variableCounter: 0, nodeOutputVars: new Map()`. -/
def initCtx : GenCtx := ⟨∅, 0, []⟩

/-- The read-only generation inputs: the two maps built at the top of
`generate` and the definition catalog (`nodeDefinitionLoader.getDefinition`,
passed explicitly). -/
structure Fx (κ : Type) where
  nm : List (String × Node)
  cm : List (String × Connection)
  catalog : String → Option (NodeDef κ)

/-- `findInputConnection(nodeId, socketId, connections)`. -/
def findInputConnection (cm : List (String × Connection))
    (nodeId socketId : String) : Option Connection :=
  (jsMapValues cm).find? (fun c => c.toNodeId == nodeId && c.toSocketId == socketId)

/-- The per-language formatting of the two emitters; every other part of the
generation algorithm is shared verbatim between `WGSLGenerator` and
`GLSLGenerator`. -/
structure Backend where
  getDefault : SocketType → Option JSVal → String
  typeStr : SocketType → String
  bindLine : String → String → String → String
  finalLine : String → String → String
  pickerLine : String → Int → Int → Int → String
  defaultColor : String

/-- WGSL formatting (`WGSLGenerator`): `let v: T = rhs;` bindings,
`vec4f`/`vec3f` constructors. -/
def wgslBackend : Backend where
  getDefault := wgslGetDefaultValue
  typeStr := typeToWGSL
  bindLine := fun ty v rhs => "  let " ++ v ++ ": " ++ ty ++ " = " ++ rhs ++ ";"
  finalLine := fun c a => "  let finalColor = vec4f(" ++ c ++ ", " ++ a ++ ");"
  pickerLine := fun v r g bl =>
    "  let " ++ v ++ ": vec3f = vec3f(" ++ jsToFixed4 r ++ ", " ++
      jsToFixed4 g ++ ", " ++ jsToFixed4 bl ++ ");"
  defaultColor := "vec3f(0.0)"

/-- GLSL formatting (`GLSLGenerator`): `T v = rhs;` bindings, `vec4`/`vec3`
constructors. -/
def glslBackend : Backend where
  getDefault := glslGetDefaultValue
  typeStr := typeToGLSL
  bindLine := fun ty v rhs => "  " ++ ty ++ " " ++ v ++ " = " ++ rhs ++ ";"
  finalLine := fun c a => "  vec4 finalColor = vec4(" ++ c ++ ", " ++ a ++ ");"
  pickerLine := fun v r g bl =>
    "  vec3 " ++ v ++ " = vec3(" ++ jsToFixed4 r ++ ", " ++
      jsToFixed4 g ++ ", " ++ jsToFixed4 bl ++ ");"
  defaultColor := "vec3(0.0)"

/-- `node.getValue('_color') as number[] || [1, 1, 1]` followed by reading
indices 0–2 and calling `.toFixed(4)` on each.  A stored scalar, or an array
with fewer than three entries, is truthy but makes an index read yield
`undefined`, so `.toFixed` throws — modelled as `none`. -/
def colorPickerColor (v : Option JSVal) : Option (Int × Int × Int) :=
  match v with
  | none => some (1, 1, 1)
  | some (.num _) => none
  | some (.arr (a :: b' :: c :: _)) => some (a, b', c)
  | some (.arr _) => none

/-- The emission loop over `definition.outputs` in the multi-output branch:
one `v<counter>` binding per output socket, each calling
`node_<id>_<name.toLowerCase()>` with the same argument string. -/
def emitOutputs (b : Backend) (owner nodeIdStr args : String) :
    List SocketDef → Nat → List (String × String) →
    List Stmt × Nat × List (String × String)
  | [], ctr, vars => ([], ctr, vars)
  | out :: rest, ctr, vars =>
    let varName := "v" ++ toString (ctr + 1)
    let funcName := "node_" ++ nodeIdStr ++ "_" ++ jsToLowerCase out.name
    let line := b.bindLine (b.typeStr out.type) varName (funcName ++ "(" ++ args ++ ")")
    let r := emitOutputs b owner nodeIdStr args rest (ctr + 1)
      (jsMapSet vars out.name varName)
    (⟨owner, line⟩ :: r.1, r.2)

/-- The `for (const input of node.inputs)` loop of `generateNodeEvaluation`,
abstracted over the recursive evaluation function (which `evalNode` passes
as itself at the next fuel level).  Returns the emitted lines, the resolved
`inputValues` argument expressions in input-declaration order, and the
updated context.  `none` propagates a crash of a recursive evaluation. -/
def evalInputsF {κ : Type} (evalFn : Node → GenCtx → Option (List Stmt × GenCtx))
    (fx : Fx κ) (b : Backend) (node : Node) :
    List Socket → GenCtx → Option (List Stmt × List String × GenCtx)
  | [], σ => some ([], [], σ)
  | inp :: rest, σ =>
    match findInputConnection fx.cm node.id inp.id with
    | some c =>
      match jsMapGet fx.nm c.fromNodeId with
      | none =>
        -- `if (sourceNode)` fails: neither a line nor an argument is pushed.
        evalInputsF evalFn fx b node rest σ
      | some src =>
        match evalFn src σ with
        | none => none
        | some (srcLines, σa) =>
          let v :=
            match jsMapGet σa.outputVars src.id,
                src.outputs.find? (fun o => o.id == c.fromSocketId) with
            | some vars, some sout =>
                jsOrD (jsMapGet vars sout.name) (b.getDefault inp.type none)
            | _, _ => b.getDefault inp.type none
          match evalInputsF evalFn fx b node rest σa with
          | none => none
          | some (ls, vs, σ') => some (srcLines ++ ls, v :: vs, σ')
    | none =>
      let value := node.getValue inp.name
      match evalInputsF evalFn fx b node rest σ with
      | none => none
      | some (ls, vs, σ') => some (ls, b.getDefault inp.type value :: vs, σ')

/-- `generateNodeEvaluation(node, context)`, fuel-indexed.  The TypeScript
recursion terminates because every call first adds the node to the visited
set; any fuel at least the number of map entries plus one is beyond
exhaustion (see `wgslGenerate`). -/
def evalNode {κ : Type} (b : Backend) (fx : Fx κ) :
    Nat → Node → GenCtx → Option (List Stmt × GenCtx)
  | 0, _, σ => some ([], σ)
  | fuel + 1, node, σ =>
    if node.id ∈ σ.processed then some ([], σ)
    else
      let σ₁ : GenCtx := { σ with processed := insert node.id σ.processed }
      match fx.catalog node.definitionId with
      | none => some ([], σ₁)
      | some defn =>
        match evalInputsF (evalNode b fx fuel) fx b node node.inputs σ₁ with
        | none => none
        | some (lines, inputValues, σ₂) =>
          if node.definitionId == "output_color" then
            let colorValue := jsOrD (inputValues.get? 0) b.defaultColor
            let alphaValue := jsOrD (inputValues.get? 1) "1.0"
            some (lines ++ [⟨node.id, b.finalLine colorValue alphaValue⟩], σ₂)
          else
            let nodeIdStr := stripNodeUnderscore node.id
            if defn.customUI == some "colorPicker" then
              match defn.outputs.head? with
              | none => none
              | some out =>
                match colorPickerColor (node.getValue "_color") with
                | none => none
                | some (r, g, bl) =>
                  let varName := "v" ++ toString (σ₂.counter + 1)
                  some (lines ++ [⟨node.id, b.pickerLine varName r g bl⟩],
                    { σ₂ with
                      counter := σ₂.counter + 1,
                      outputVars := jsMapSet σ₂.outputVars node.id
                        (jsMapSet [] out.name varName) })
            else
              match defn.outputs with
              | [out] =>
                let varName := "v" ++ toString (σ₂.counter + 1)
                let funcCall := "node_" ++ nodeIdStr ++ "(" ++
                  String.intercalate ", " inputValues ++ ")"
                some (lines ++
                    [⟨node.id, b.bindLine (b.typeStr out.type) varName funcCall⟩],
                  { σ₂ with
                    counter := σ₂.counter + 1,
                    outputVars := jsMapSet σ₂.outputVars node.id
                      (jsMapSet [] out.name varName) })
              | [] =>
                some (lines,
                  { σ₂ with outputVars := jsMapSet σ₂.outputVars node.id [] })
              | outs =>
                let r := emitOutputs b node.id nodeIdStr
                  (String.intercalate ", " inputValues) outs σ₂.counter []
                some (lines ++ r.1,
                  { σ₂ with
                    counter := r.2.1,
                    outputVars := jsMapSet σ₂.outputVars node.id r.2.2 })

/-- `collectUsedDefinitions(node, nodes, connections, usedDefinitions)` —
the definition-id set is a JS `Set` whose iteration preserves insertion
order, so it is modelled as a duplicate-free list.  Note the source prunes
recursion on the *definition id* of the source node
(`!usedDefinitions.has(sourceNode.definitionId)`), not on the node id. -/
def collectUsedDefinitions (nm : List (String × Node))
    (cm : List (String × Connection)) :
    Nat → Node → List String → List String
  | 0, _, used => used
  | fuel + 1, node, used =>
    let used := if used.contains node.definitionId then used
      else used ++ [node.definitionId]
    node.inputs.foldl (fun used inp =>
      match findInputConnection cm node.id inp.id with
      | some c =>
        match jsMapGet nm c.fromNodeId with
        | some src =>
          if used.contains src.definitionId then used
          else collectUsedDefinitions nm cm fuel src used
        | none => used
      | none => used) used

/-! ### Document assembly and top-level generation -/

/-- The fixed uniform/vertex-stage preamble shared by the generated and the
default WGSL documents (braces written as escapes). -/
def wgslPreamble : String :=
  "struct Uniforms \x7b\n  time: f32,\n  resolution: vec2f,\n  mouse: vec2f,\n\x7d\n\n" ++
  "@group(0) @binding(0) var<uniform> uniforms: Uniforms;\n\n" ++
  "struct VertexOutput \x7b\n  @builtin(position) position: vec4f,\n  @location(0) uv: vec2f,\n\x7d\n\n" ++
  "@vertex\nfn vertexMain(@builtin(vertex_index) vertexIndex: u32) -> VertexOutput \x7b\n" ++
  "  var pos = array<vec2f, 6>(\n    vec2f(-1.0, -1.0),\n    vec2f( 1.0, -1.0),\n" ++
  "    vec2f(-1.0,  1.0),\n    vec2f(-1.0,  1.0),\n    vec2f( 1.0, -1.0),\n    vec2f( 1.0,  1.0)\n  );\n  \n" ++
  "  var output: VertexOutput;\n  output.position = vec4f(pos[vertexIndex], 0.0, 1.0);\n" ++
  "  output.uv = pos[vertexIndex] * 0.5 + 0.5;\n  return output;\n\x7d\n"

/-- `WGSLGenerator.assembleShader(functions, mainBody)`. -/
def wgslAssembleShader (functions : List String) (mainBody : String) : String :=
  "// Generated WGSL Shader\n" ++ wgslPreamble ++ "\n// Node functions\n" ++
  String.intercalate "\n\n" functions ++
  "\n\n@fragment\nfn fragmentMain(input: VertexOutput) -> @location(0) vec4f \x7b\n" ++
  "  let uv = input.uv;\n  \n" ++ mainBody ++ "\n  \n  return finalColor;\n\x7d\n"

/-- `WGSLGenerator.generateDefaultShader()` — the fixed fallback document. -/
def wgslDefaultShader : String :=
  "// Default WGSL Shader\n" ++ wgslPreamble ++
  "\n@fragment\nfn fragmentMain(input: VertexOutput) -> @location(0) vec4f \x7b\n" ++
  "  return vec4f(input.uv, 0.5 + 0.5 * sin(uniforms.time), 1.0);\n\x7d\n"

/-- The fixed GLSL vertex stage (identical in the generated and default
bundles). -/
def glslVertexShader : String :=
  "#version 300 es\nprecision highp float;\n\nout vec2 vUv;\n\nvoid main() \x7b\n" ++
  "  vec2 positions[6] = vec2[](\n    vec2(-1.0, -1.0),\n    vec2( 1.0, -1.0),\n" ++
  "    vec2(-1.0,  1.0),\n    vec2(-1.0,  1.0),\n    vec2( 1.0, -1.0),\n    vec2( 1.0,  1.0)\n  );\n  \n" ++
  "  vec2 pos = positions[gl_VertexID];\n  gl_Position = vec4(pos, 0.0, 1.0);\n" ++
  "  vUv = pos * 0.5 + 0.5;\n\x7d\n"

/-- The uniform/io preamble of the GLSL fragment stage. -/
def glslFragmentPreamble : String :=
  "#version 300 es\nprecision highp float;\n\nuniform float u_time;\n" ++
  "uniform vec2 u_resolution;\nuniform vec2 u_mouse;\n\nin vec2 vUv;\nout vec4 fragColor;\n"

/-- The fragment text of `assembleGLSLShaders(functions, mainBody)`. -/
def glslFragmentShader (functions : List String) (mainBody : String) : String :=
  glslFragmentPreamble ++ "\n// Node functions\n" ++
  String.intercalate "\n\n" functions ++
  "\n\nvoid main() \x7b\n  vec2 uv = vUv;\n  \n" ++ mainBody ++
  "\n  \n  fragColor = finalColor;\n\x7d\n"

/-- The fragment text of the default GLSL bundle. -/
def glslDefaultFragment : String :=
  glslFragmentPreamble ++
  "\nvoid main() \x7b\n  fragColor = vec4(vUv, 0.5 + 0.5 * sin(u_time), 1.0);\n\x7d\n"

/-- `JSON.stringify` escaping of one character.  The shader texts contain
only printable ASCII and newlines, for which this is exact. -/
def jsonEscapeChar (c : Char) : String :=
  if c = '"' then "\\\""
  else if c = '\\' then "\\\\"
  else if c = '\n' then "\\n"
  else if c = '\r' then "\\r"
  else if c = '\t' then "\\t"
  else String.singleton c

/-- `JSON.stringify` of a string value. -/
def jsonEscape (s : String) : String :=
  String.join (s.data.map jsonEscapeChar)

/-- `JSON.stringify(\x7b vertex, fragment \x7d)` with the property order of
the object literal. -/
def jsonStringify2 (vertex fragment : String) : String :=
  "\x7b\"vertex\":\"" ++ jsonEscape vertex ++ "\",\"fragment\":\"" ++
    jsonEscape fragment ++ "\"\x7d"

/-- `GLSLGenerator.generateDefault()`. -/
def glslDefaultDocument : String :=
  jsonStringify2 glslVertexShader glslDefaultFragment

/-- The function-declaration collection loop of `WGSLGenerator.generate`:
for each collected definition id, instantiate its template once per node
instance of that definition (over the whole node map) and deduplicate by
resulting text. -/
def wgslDecls (catalog : String → Option (NodeDef String))
    (nm : List (String × Node)) (used : List String) : List String :=
  used.foldl (fun decls defId =>
    match catalog defId with
    | some defn =>
      if defn.code ≠ "" then
        ((jsMapValues nm).filter (fun n => n.definitionId == defId)).foldl
          (fun decls n =>
            let code := instantiateTemplate defn.code (stripNodeUnderscore n.id)
            if decls.contains code then decls else decls ++ [code]) decls
      else decls
    | none => decls) []

/-- The same loop in `GLSLGenerator.generate`: `def.code` may be a legacy
string (then the webgl text is taken to be `''` and skipped) or the
two-backend record, whose `webgl` field is used. -/
def glslDecls (catalog : String → Option (NodeDef GCode))
    (nm : List (String × Node)) (used : List String) : List String :=
  used.foldl (fun decls defId =>
    match catalog defId with
    | some defn =>
      let truthy : Bool := match defn.code with
        | .str s => s != ""
        | .both _ _ => true
      if truthy then
        let code := match defn.code with
          | .str _ => ""
          | .both _ w => w
        if code ≠ "" then
          ((jsMapValues nm).filter (fun n => n.definitionId == defId)).foldl
            (fun decls n =>
              let c := instantiateTemplate code (stripNodeUnderscore n.id)
              if decls.contains c then decls else decls ++ [c]) decls
        else decls
      else decls
    | none => decls) []

/-- The shared head of both `generate` methods: build the two maps and
locate the sink node (`nodes.find(n => n.definitionId === 'output_color')`). -/
def buildFx {κ : Type} (catalog : String → Option (NodeDef κ))
    (nodes : List Node) (conns : List Connection) : Fx κ :=
  ⟨jsMapFromList (fun n => n.id) nodes, jsMapFromList (fun c => c.id) conns, catalog⟩

/-- `nodes.find(n => n.definitionId === 'output_color')`. -/
def findOutputNode (nodes : List Node) : Option Node :=
  nodes.find? (fun n => n.definitionId == "output_color")

/-- The statement list of the emitted fragment body (whose `text` fields,
joined with newlines, are the `mainBody` both generators splice into the
document), for any backend.  `some []` when there is no sink node (the
resolver is skipped entirely). -/
def generateBody {κ : Type} (b : Backend) (catalog : String → Option (NodeDef κ))
    (nodes : List Node) (conns : List Connection) : Option (List Stmt) :=
  match findOutputNode nodes with
  | none => some []
  | some outputNode =>
    (evalNode b (buildFx catalog nodes conns) (nodes.length + 1) outputNode
      initCtx).map (fun r => r.1)

/-- `WGSLGenerator.generate(nodes, connections)`; `none` models the crash
paths of the color-picker branch, every other input yields a document. -/
def wgslGenerate (catalog : String → Option (NodeDef String))
    (nodes : List Node) (conns : List Connection) : Option String :=
  let fx := buildFx catalog nodes conns
  match findOutputNode nodes with
  | none => some wgslDefaultShader
  | some outputNode =>
    let used := collectUsedDefinitions fx.nm fx.cm (nodes.length + 1) outputNode []
    let decls := wgslDecls catalog fx.nm used
    match evalNode wgslBackend fx (nodes.length + 1) outputNode initCtx with
    | none => none
    | some (stmts, _) =>
      some (wgslAssembleShader decls
        (String.intercalate "\n" (stmts.map (fun s => s.text))))

/-- `GLSLGenerator.generate(nodes, connections)` — returns the
`JSON.stringify` of the vertex/fragment bundle. -/
def glslGenerate (catalog : String → Option (NodeDef GCode))
    (nodes : List Node) (conns : List Connection) : Option String :=
  let fx := buildFx catalog nodes conns
  match findOutputNode nodes with
  | none => some glslDefaultDocument
  | some outputNode =>
    let used := collectUsedDefinitions fx.nm fx.cm (nodes.length + 1) outputNode []
    let decls := glslDecls catalog fx.nm used
    match evalNode glslBackend fx (nodes.length + 1) outputNode initCtx with
    | none => none
    | some (stmts, _) =>
      some (jsonStringify2 glslVertexShader
        (glslFragmentShader decls
          (String.intercalate "\n" (stmts.map (fun s => s.text)))))

/-! ### Graph model operations (connection creation) -/

/-- `Socket.canConnectTo(other)` with its private `isTypeCompatible`. -/
def isTypeCompatible (a b : SocketType) : Bool :=
  if a == b then true
  else if a == .color && b == .vec3 then true
  else if a == .vec3 && b == .color then true
  else false

/-- `Socket.canConnectTo`: different nodes, different directions, compatible
types. -/
def Socket.canConnectTo (s other : Socket) : Bool :=
  if s.nodeId == other.nodeId then false
  else if s.direction == other.direction then false
  else isTypeCompatible s.type other.type

/-- The socket-type string literals (used in the error message template). -/
def socketTypeStr (t : SocketType) : String :=
  match t with
  | .float => "float" | .vec2 => "vec2" | .vec3 => "vec3" | .vec4 => "vec4"
  | .color => "color" | .sampler => "sampler" | .texture2d => "texture2d"

/-- The `Connection` constructor validation: no self-loop. -/
def Connection.mkChecked (id fromNodeId fromSocketId toNodeId toSocketId : String) :
    Except String Connection :=
  if fromNodeId == toNodeId then
    .error "Cannot create connection within the same node"
  else .ok ⟨id, fromNodeId, fromSocketId, toNodeId, toSocketId⟩

/-- `Connection.create(from, to)`.  The random `conn_<timestamp>_<rand>` id
is an opaque fresh string, passed as a parameter. -/
def Connection.create (newId : String) (src dst : Socket) : Except String Connection :=
  if !(src.canConnectTo dst) then
    .error ("Cannot connect " ++ socketTypeStr src.type ++ " to " ++
      socketTypeStr dst.type)
  else
    let outputSocket := if src.direction == .output then src else dst
    let inputSocket := if src.direction == .input then src else dst
    Connection.mkChecked newId outputSocket.nodeId outputSocket.id
      inputSocket.nodeId inputSocket.id

/-- `Connection.involvesSocket(socketId)`. -/
def Connection.involvesSocket (c : Connection) (sid : String) : Bool :=
  c.fromSocketId == sid || c.toSocketId == sid

/-- `NodeGraph` (`src/domain/entities/NodeGraph.ts`): the two backing maps. -/
structure NodeGraph where
  nodes : List (String × Node)
  connections : List (String × Connection)
deriving DecidableEq

/-- `Node.getSocket(socketId)`: search inputs then outputs. -/
def Node.getSocket (n : Node) (sid : String) : Option Socket :=
  (n.inputs ++ n.outputs).find? (fun s => s.id == sid)

/-- `NodeGraph.getSocket(socketId)`: first hit over all nodes in map order. -/
def NodeGraph.getSocket (g : NodeGraph) (sid : String) : Option Socket :=
  (jsMapValues g.nodes).findSome? (fun n => n.getSocket sid)

/-- `NodeGraph.getConnectionsBySocketId(socketId)`. -/
def NodeGraph.getConnectionsBySocketId (g : NodeGraph) (sid : String) :
    List Connection :=
  (jsMapValues g.connections).filter (fun c => c.involvesSocket sid)

/-- `NodeGraph.removeConnection(connectionId)`. -/
def NodeGraph.removeConnection (g : NodeGraph) (cid : String) : NodeGraph :=
  { g with connections := jsMapDelete g.connections cid }

/-- `NodeGraph.addConnection(connection)`. -/
def NodeGraph.addConnection (g : NodeGraph) (c : Connection) : NodeGraph :=
  { g with connections := jsMapSet g.connections c.id c }

/-- `CreateConnectionUseCase.execute(nodeGraph, fromSocketId, toSocketId)`
(the NodeGraph-based use case): look both sockets up, read the existing
connections of the target socket, validate via `Connection.create`, and only
then remove the existing connections and add the new one.  The pair returns
the thrown error or the result, together with the graph as left behind. -/
def CreateConnectionUseCase.execute (g : NodeGraph)
    (fromSocketId toSocketId newId : String) :
    Except String (Connection × List Connection) × NodeGraph :=
  match g.getSocket fromSocketId, g.getSocket toSocketId with
  | some fromSocket, some toSocket =>
    let existingConnections := g.getConnectionsBySocketId toSocketId
    match Connection.create newId fromSocket toSocket with
    | .error e => (.error e, g)
    | .ok connection =>
      let g₁ := existingConnections.foldl
        (fun gg conn => gg.removeConnection conn.id) g
      let g₂ := g₁.addConnection connection
      (.ok (connection, existingConnections), g₂)
  | _, _ => (.error "Socket not found", g)

/-- The connections currently feeding an input socket. -/
def feedingConnections (g : NodeGraph) (sid : String) : List Connection :=
  (jsMapValues g.connections).filter (fun c => c.toSocketId == sid)

/-! ### The dependency relation of the emitted graph -/

/-- Direct dependency between node ids, read off the same lookups the
evaluator performs: `a` depends on `b` when some input socket of the map
entry of `a` is fed (via `findInputConnection`) by a connection whose source
node id is `b` and is present in the node map. -/
def directDepB (nm : List (String × Node)) (cm : List (String × Connection))
    (a b : String) : Bool :=
  match jsMapGet nm a with
  | none => false
  | some nd =>
    nd.inputs.any (fun inp =>
      match findInputConnection cm nd.id inp.id with
      | none => false
      | some c => c.fromNodeId == b && (jsMapGet nm b).isSome)

/-- Transitive dependency through connections. -/
def TransDep (nm : List (String × Node)) (cm : List (String × Connection))
    (a b : String) : Prop :=
  Relation.TransGen (fun x y => directDepB nm cm x y = true) a b

/-! ## Helper lemmas -/

set_option maxRecDepth 100000

theorem digitToChar_ne_dot (d : Nat) : digitToChar d ≠ '.' := by
  unfold digitToChar
  split <;> decide

theorem dot_not_mem_natToCharsAux (fuel m : Nat) :
    '.' ∉ natToCharsAux fuel m := by
  induction fuel generalizing m with
  | zero =>
    simp only [natToCharsAux, List.mem_singleton]
    exact fun h => digitToChar_ne_dot m h.symm
  | succ fuel ih =>
    simp only [natToCharsAux]
    split
    · simp only [List.mem_singleton]
      intro h
      exact digitToChar_ne_dot m h.symm
    · intro h
      rcases List.mem_append.mp h with h1 | h1
      · exact ih (m / 10) h1
      · exact digitToChar_ne_dot (m % 10) (List.mem_singleton.mp h1).symm

theorem jsIncludesDot_jsNumToString (n : Int) :
    jsIncludesDot (jsNumToString n) = false := by
  unfold jsIncludesDot jsNumToString natToChars
  have hc : ∀ l : List Char, '.' ∉ l → l.contains '.' = false := by
    intro l hl
    rw [List.contains, List.elem_eq_mem]
    simpa using hl
  split
  · apply hc
    intro h
    rcases List.mem_cons.mp h with h1 | h1
    · exact absurd h1.symm (by decide)
    · exact dot_not_mem_natToCharsAux _ _ h1
  · exact hc _ (dot_not_mem_natToCharsAux _ _)

theorem glslToFloat_eq (n : Int) : glslToFloat n = jsNumToString n ++ ".0" := by
  simp only [glslToFloat, jsIncludesDot_jsNumToString]
  simp

/-! ## Claim theorems -/

/-- C1: the shader generators are pure functions of the definition catalog
and the graph snapshot — compiling the same `(nodes, connections)` twice
with the same catalog yields byte-identical output for both backends, with
no cross-call state (the visited set, counter and registry of
`GenerationContext` are created afresh inside each `generate` call, which is
why `wgslGenerate`/`glslGenerate` take only the catalog and the snapshot). -/
theorem claim1_determinism (catW : String → Option (NodeDef String))
    (catG : String → Option (NodeDef GCode))
    (nodes : List Node) (conns : List Connection) :
    wgslGenerate catW nodes conns = wgslGenerate catW nodes conns ∧
    glslGenerate catG nodes conns = glslGenerate catG nodes conns :=
  ⟨rfl, rfl⟩

/-- C2: whenever no node's definition id is the sink designation
`output_color` (in particular for the empty node list), both generators
return exactly their fixed hard-coded default document — a nonempty text —
and do not reach any crash path. -/
theorem claim2_fallback_default (catW : String → Option (NodeDef String))
    (catG : String → Option (NodeDef GCode))
    (nodes : List Node) (conns : List Connection)
    (h : ∀ n ∈ nodes, n.definitionId ≠ "output_color") :
    wgslGenerate catW nodes conns = some wgslDefaultShader ∧
    glslGenerate catG nodes conns = some glslDefaultDocument ∧
    wgslDefaultShader ≠ "" ∧ glslDefaultDocument ≠ "" := by
  have hfind : findOutputNode nodes = none := by
    unfold findOutputNode
    rw [List.find?_eq_none]
    intro n hn
    simpa using h n hn
  refine ⟨?_, ?_, by decide, by decide⟩
  · unfold wgslGenerate
    rw [hfind]
  · unfold glslGenerate
    rw [hfind]

/-- C2 witness: the empty graph compiles to the default documents. -/
theorem claim2_witness :
    wgslGenerate (fun _ => none) [] [] = some wgslDefaultShader ∧
    glslGenerate (fun _ => none) [] [] = some glslDefaultDocument ∧
    wgslDefaultShader ≠ "" ∧ glslDefaultDocument ≠ "" :=
  claim2_fallback_default _ _ [] [] (by intro n hn; exact absurd hn (List.not_mem_nil n))

/-- C5 counterexample: the WGSL formatter renders the integral stored scalar
`5` as `String(5) = "5"`, with no decimal point — the claim's "{n}.0" for
both backends is false for the WGSL backend. -/
theorem claim5_counterexample :
    wgslGetDefaultValue SocketType.float (some (JSVal.num 5)) = "5" ∧
    jsIncludesDot (wgslGetDefaultValue SocketType.float (some (JSVal.num 5))) = false ∧
    wgslGetDefaultValue SocketType.float (some (JSVal.num 5)) ≠ "5.0" := by
  refine ⟨by decide, by decide, by decide⟩

/-- C5 (amended): only the GLSL backend formats an integral scalar value `n`
as `"{n}.0"`; its scalar literals always carry a decimal point (also for the
missing-value default `"0.0"`).  The WGSL formatter returns `String(n)`
unchanged for a present value — no decimal point is appended — and only its
missing-value default `"0.0"` carries one. -/
theorem claim5_literal_formatting (n : Int) :
    glslGetDefaultValue SocketType.float (some (JSVal.num n)) =
      jsNumToString n ++ ".0" ∧
    glslGetDefaultValue SocketType.float none = "0.0" ∧
    wgslGetDefaultValue SocketType.float (some (JSVal.num n)) = jsNumToString n ∧
    wgslGetDefaultValue SocketType.float none = "0.0" := by
  refine ⟨?_, rfl, rfl, rfl⟩
  unfold glslGetDefaultValue
  exact glslToFloat_eq n

theorem isTypeCompatible_iff (a b : SocketType) :
    isTypeCompatible a b = true ↔
      (a = b ∨ (a = .color ∧ b = .vec3) ∨ (a = .vec3 ∧ b = .color)) := by
  cases a <;> cases b <;> decide

theorem canConnectTo_iff (s o : Socket) :
    s.canConnectTo o = true ↔
      (s.nodeId ≠ o.nodeId ∧ s.direction ≠ o.direction ∧
        isTypeCompatible s.type o.type = true) := by
  unfold Socket.canConnectTo
  by_cases h1 : s.nodeId = o.nodeId
  · simp [h1]
  · by_cases h2 : s.direction = o.direction
    · simp [h1, h2]
    · simp [h1, h2]

/-- C9: `Connection.create(from, to)` succeeds exactly when the socket types
are equal or one is `color` and the other `vec3`, the sockets belong to
distinct nodes, and their directions differ; in every other case it throws.
(The self-loop re-check in the `Connection` constructor can never fire after
`canConnectTo` has passed.) -/
theorem claim9_connection_validity (newId : String) (src dst : Socket) :
    (Connection.create newId src dst).isOk = true ↔
      ((src.type = dst.type ∨ (src.type = .color ∧ dst.type = .vec3) ∨
        (src.type = .vec3 ∧ dst.type = .color)) ∧
       src.nodeId ≠ dst.nodeId ∧ src.direction ≠ dst.direction) := by
  unfold Connection.create Connection.mkChecked
  by_cases hc : src.canConnectTo dst = true
  · have h := (canConnectTo_iff src dst).mp hc
    rcases h with ⟨hn, hd, ht⟩
    have hty := (isTypeCompatible_iff _ _).mp ht
    simp only [hc, Bool.not_true, Bool.false_eq_true, if_false]
    by_cases hdir : src.direction == SocketDirection.output
    · have hnodes : ((if (src.direction == SocketDirection.output) = true then src
          else dst).nodeId ==
          (if (src.direction == SocketDirection.input) = true then src
            else dst).nodeId) = false := by
        have hdir2 : (src.direction == SocketDirection.input) = false := by
          revert hdir
          cases src.direction <;> decide
        simp only [hdir, if_true, hdir2, Bool.false_eq_true, if_false]
        simpa using hn
      rw [hnodes]
      constructor
      · intro _
        exact ⟨hty, hn, hd⟩
      · intro _
        rfl
    · have hdir2 : (src.direction == SocketDirection.input) = true := by
        revert hdir
        cases src.direction <;> decide
      have hnodes : ((if (src.direction == SocketDirection.output) = true then src
          else dst).nodeId ==
          (if (src.direction == SocketDirection.input) = true then src
            else dst).nodeId) = false := by
        simp only [hdir, Bool.false_eq_true, if_false, hdir2, if_true]
        simp only [beq_eq_false_iff_ne]
        exact fun hh => hn hh.symm
      rw [hnodes]
      constructor
      · intro _
        exact ⟨hty, hn, hd⟩
      · intro _
        rfl
  · have hb : src.canConnectTo dst = false := by
      revert hc
      cases src.canConnectTo dst <;> simp
    simp only [hb, Bool.not_false, if_true]
    constructor
    · intro h
      exact absurd h (by simp [Except.isOk, Except.toBool])
    · intro h
      exfalso
      apply hc
      rw [canConnectTo_iff]
      exact ⟨h.2.1, h.2.2, (isTypeCompatible_iff _ _).mpr h.1⟩

/-- C10: the NodeGraph-based `CreateConnectionUseCase.execute` is atomic on
failure — when it throws (socket not found, or `Connection.create` rejects
the pair), the graph is exactly as before: validation runs before any
removal of existing connections. -/
theorem claim10_atomic_failure (g : NodeGraph) (fromId toId newId e : String)
    (h : (CreateConnectionUseCase.execute g fromId toId newId).1 = .error e) :
    (CreateConnectionUseCase.execute g fromId toId newId).2 = g := by
  unfold CreateConnectionUseCase.execute at h ⊢
  rcases hf : g.getSocket fromId with _ | fs <;>
    rcases ht : g.getSocket toId with _ | ts <;>
      simp only [hf, ht] at h ⊢
  rcases hc : Connection.create newId fs ts with e' | c <;> simp only [hc] at h ⊢
  exact absurd h (by simp)

/-- C10 witness: a failing call (sockets absent in the empty graph) leaves
the graph untouched. -/
theorem claim10_witness :
    (CreateConnectionUseCase.execute ⟨[], []⟩ "a" "b" "c").1 =
      .error "Socket not found" ∧
    (CreateConnectionUseCase.execute ⟨[], []⟩ "a" "b" "c").2 = ⟨[], []⟩ :=
  ⟨rfl, claim10_atomic_failure ⟨[], []⟩ "a" "b" "c" "Socket not found" rfl⟩

/-! ## Monotonicity of the visited set -/

theorem evalInputsF_mono {κ : Type} (evalFn : Node → GenCtx → Option (List Stmt × GenCtx))
    (fx : Fx κ) (b : Backend) (nd : Node)
    (hf : ∀ n' σ r, evalFn n' σ = some r → σ.processed ⊆ r.2.processed) :
    ∀ ins σ r, evalInputsF evalFn fx b nd ins σ = some r →
      σ.processed ⊆ r.2.2.processed := by
  intro ins
  induction ins with
  | nil =>
    intro σ r h
    simp only [evalInputsF, Option.some.injEq] at h
    rw [← h]
  | cons inp rest ih =>
    intro σ r h
    simp only [evalInputsF] at h
    split at h
    · split at h
      · exact ih _ _ h
      · split at h
        · exact absurd h (by simp)
        · rename_i srcLines σa heval
          split at h
          · exact absurd h (by simp)
          · rename_i ls vs σ' hrec
            simp only [Option.some.injEq] at h
            rw [← h]
            exact (hf _ _ _ heval).trans (ih σa (ls, vs, σ') hrec)
    · split at h
      · exact absurd h (by simp)
      · rename_i ls vs σ' hrec
        simp only [Option.some.injEq] at h
        rw [← h]
        exact ih σ (ls, vs, σ') hrec

theorem evalNode_mono {κ : Type} (b : Backend) (fx : Fx κ) :
    ∀ fuel n σ r, evalNode b fx fuel n σ = some r →
      σ.processed ⊆ r.2.processed := by
  intro fuel
  induction fuel with
  | zero =>
    intro n σ r h
    simp only [evalNode, Option.some.injEq] at h
    rw [← h]
  | succ fuel ih =>
    intro n σ r h
    rw [evalNode] at h
    split at h
    · simp only [Option.some.injEq] at h
      rw [← h]
    · rename_i hmem
      have hins : σ.processed ⊆ (insert n.id σ.processed : Finset String) :=
        Finset.subset_insert _ _
      split at h
      · simp only [Option.some.injEq] at h
        rw [← h]
        exact hins
      · simp only at h
        rcases hin : evalInputsF (evalNode b fx fuel) fx b n n.inputs
            { processed := insert n.id σ.processed, counter := σ.counter,
              outputVars := σ.outputVars } with _ | r2
        · rw [hin] at h
          exact absurd h (by simp)
        · obtain ⟨lines, inputValues, σ₂⟩ := r2
          rw [hin] at h
          simp only at h
          have h2 : σ.processed ⊆ σ₂.processed :=
            hins.trans (evalInputsF_mono _ fx b n (fun n' σ' r' h' => ih n' σ' r' h')
              n.inputs _ _ hin)
          split at h
          · simp only [Option.some.injEq] at h
            rw [← h]
            exact h2
          · split at h
            · split at h
              · exact absurd h (by simp)
              · split at h
                · exact absurd h (by simp)
                · simp only [Option.some.injEq] at h
                  rw [← h]
                  exact h2
            · split at h <;> simp only [Option.some.injEq] at h <;> rw [← h] <;>
                exact h2

theorem evalNode_marks {κ : Type} (b : Backend) (fx : Fx κ)
    (fuel : Nat) (n : Node) (σ : GenCtx) (r : List Stmt × GenCtx)
    (h : evalNode b fx (fuel + 1) n σ = some r) : n.id ∈ r.2.processed := by
  rw [evalNode] at h
  split at h
  · rename_i hmem
    simp only [Option.some.injEq] at h
    rw [← h]
    exact hmem
  · rename_i hmem
    have hins : n.id ∈ (insert n.id σ.processed : Finset String) :=
      Finset.mem_insert_self _ _
    split at h
    · simp only [Option.some.injEq] at h
      rw [← h]
      exact hins
    · simp only at h
      rcases hin : evalInputsF (evalNode b fx fuel) fx b n n.inputs
          { processed := insert n.id σ.processed, counter := σ.counter,
            outputVars := σ.outputVars } with _ | r2
      · rw [hin] at h
        exact absurd h (by simp)
      · obtain ⟨lines, inputValues, σ₂⟩ := r2
        rw [hin] at h
        simp only at h
        have h2 : n.id ∈ σ₂.processed :=
          evalInputsF_mono _ fx b n
            (fun n' σ' r' h' => evalNode_mono b fx fuel n' σ' r' h')
            n.inputs _ _ hin hins
        split at h
        · simp only [Option.some.injEq] at h
          rw [← h]
          exact h2
        · split at h
          · split at h
            · exact absurd h (by simp)
            · split at h
              · exact absurd h (by simp)
              · simp only [Option.some.injEq] at h
                rw [← h]
                exact h2
          · split at h <;> simp only [Option.some.injEq] at h <;> rw [← h] <;>
              exact h2

/-- C3: memoization — once a node has been evaluated in a compile pass
(successfully, at any positive fuel), every later evaluation of the same
node in that pass, from any context whose visited set has only grown,
returns immediately with no emitted statements and the context unchanged
(in particular the output-variable registry entries of the node are reused
as-is by every further consumer).  Its binding statements therefore enter
the body exactly once regardless of fan-out. -/
theorem claim3_memoization {κ : Type} (b : Backend) (fx : Fx κ)
    (fuel : Nat) (n : Node) (σ : GenCtx) (L : List Stmt) (σ' : GenCtx)
    (h : evalNode b fx (fuel + 1) n σ = some (L, σ')) :
    n.id ∈ σ'.processed ∧
    ∀ fuel₂ σ₂, σ'.processed ⊆ σ₂.processed →
      evalNode b fx fuel₂ n σ₂ = some ([], σ₂) := by
  have hm := evalNode_marks b fx fuel n σ (L, σ') h
  refine ⟨hm, ?_⟩
  intro fuel₂ σ₂ hsub
  have hmem : n.id ∈ σ₂.processed := hsub hm
  cases fuel₂ with
  | zero => rfl
  | succ f =>
    rw [evalNode, if_pos hmem]

/-- A one-node graph used to witness memoization: node `a` of definition
`d` with a single output. -/
def w3Node : Node :=
  { id := "a", definitionId := "d", inputs := [],
    outputs := [⟨"ao", "a", "o", .float, .output, none⟩], values := [] }

/-- The generation inputs for the memoization witness. -/
def w3Fx : Fx String :=
  ⟨[("a", w3Node)], [],
    fun i => if i = "d" then
      some { inputs := [], outputs := [⟨"o", SocketType.float, none⟩], code := "c" }
    else none⟩

/-- The context after the first evaluation of `w3Node`. -/
def w3Ctx : GenCtx :=
  { processed := {"a"}, counter := 1, outputVars := [("a", [("o", "v1")])] }

/-- C3 witness: after node `a` has been evaluated once (emitting its single
binding), re-evaluating it contributes nothing and leaves the context — in
particular its registered output variable — untouched. -/
theorem claim3_witness :
    evalNode wgslBackend w3Fx 5 w3Node w3Ctx = some ([], w3Ctx) :=
  (claim3_memoization wgslBackend w3Fx 0 w3Node initCtx
    [⟨"a", "  let v1: f32 = node_a();"⟩] w3Ctx (by decide)).2 5 w3Ctx
    (Finset.Subset.refl _)

theorem emitOutputs_stmts (b : Backend) (owner idStr args : String) :
    ∀ (outs : List SocketDef) (ctr : Nat) (vars : List (String × String)),
      (emitOutputs b owner idStr args outs ctr vars).1 =
        (outs.zip (List.range outs.length)).map (fun p =>
          ⟨owner, b.bindLine (b.typeStr p.1.type)
            ("v" ++ toString (ctr + p.2 + 1))
            ("node_" ++ idStr ++ "_" ++ jsToLowerCase p.1.name ++
              "(" ++ args ++ ")")⟩) := by
  intro outs
  induction outs with
  | nil => intro ctr vars; simp [emitOutputs]
  | cons o rest ih =>
    intro ctr vars
    simp only [emitOutputs, ih, List.length_cons, List.range_succ_eq_map,
      List.zip_cons_cons, List.map_cons, List.zip_map_right, List.map_map]
    congr 1
    · apply List.map_congr_left
      intro p _
      simp only [Function.comp_apply, Prod.map_apply, id_eq]
      have harith : ctr + 1 + p.2 + 1 = ctr + Nat.succ p.2 + 1 := by omega
      rw [harith]
      obtain ⟨pd, pn⟩ := p
      rfl

/-- C6: a non-sink, non-color-picker node whose definition declares two or
more output sockets emits, right after its resolved inputs, one binding per
output socket in declaration order; the `k`-th binding calls the mangled
function `node_<strippedId>_<outputNameLowercased>` and every one of the
calls receives the identical argument string (the input expressions joined
in declaration order). -/
theorem claim6_multi_output {κ : Type} (b : Backend) (fx : Fx κ)
    (fuel : Nat) (n : Node) (σ : GenCtx) (defn : NodeDef κ)
    (o₁ o₂ : SocketDef) (outs : List SocketDef) (L : List Stmt) (σ' : GenCtx)
    (hmem : n.id ∉ σ.processed)
    (hcat : fx.catalog n.definitionId = some defn)
    (hsink : n.definitionId ≠ "output_color")
    (hpick : defn.customUI ≠ some "colorPicker")
    (houts : defn.outputs = o₁ :: o₂ :: outs)
    (h : evalNode b fx (fuel + 1) n σ = some (L, σ')) :
    ∃ pre vals σ₂,
      evalInputsF (evalNode b fx fuel) fx b n n.inputs
        { σ with processed := insert n.id σ.processed } = some (pre, vals, σ₂) ∧
      L = pre ++ (defn.outputs.zip (List.range defn.outputs.length)).map (fun p =>
        ⟨n.id, b.bindLine (b.typeStr p.1.type)
          ("v" ++ toString (σ₂.counter + p.2 + 1))
          ("node_" ++ stripNodeUnderscore n.id ++ "_" ++ jsToLowerCase p.1.name ++
            "(" ++ String.intercalate ", " vals ++ ")")⟩) := by
  rw [evalNode, if_neg hmem] at h
  simp only at h
  rw [hcat] at h
  rcases hin : evalInputsF (evalNode b fx fuel) fx b n n.inputs
      { processed := insert n.id σ.processed, counter := σ.counter,
        outputVars := σ.outputVars } with _ | r2
  · rw [hin] at h
    exact absurd h (by simp)
  · obtain ⟨pre, vals, σ₂⟩ := r2
    rw [hin] at h
    simp only at h
    have hb1 : (n.definitionId == "output_color") = false := by
      simpa using hsink
    have hb2 : (defn.customUI == some "colorPicker") = false := by
      simpa using hpick
    rw [hb1] at h
    simp only [Bool.false_eq_true, if_false] at h
    rw [hb2] at h
    simp only [Bool.false_eq_true, if_false] at h
    rw [houts] at h
    simp only [Option.some.injEq, Prod.mk.injEq] at h
    refine ⟨pre, vals, σ₂, rfl, ?_⟩
    rw [houts, ← h.1, emitOutputs_stmts]

/-- A two-output node (outputs named `X` and `Y`) for the multi-output
witness. -/
def w6Node : Node :=
  { id := "k", definitionId := "sep", inputs := [],
    outputs := [⟨"kx", "k", "X", .float, .output, none⟩,
      ⟨"ky", "k", "Y", .float, .output, none⟩], values := [] }

/-- The catalog definition of `w6Node` with outputs `X` and `Y`. -/
def w6Def : NodeDef String :=
  { inputs := [], outputs := [⟨"X", SocketType.float, none⟩,
      ⟨"Y", SocketType.float, none⟩], code := "c" }

/-- The generation inputs for the multi-output witness. -/
def w6Fx : Fx String :=
  ⟨[("k", w6Node)], [], fun i => if i = "sep" then some w6Def else none⟩

/-- The statements emitted for `w6Node`: mangled names end in `_x` and `_y`
and both calls receive the same (empty) argument list. -/
def w6Stmts : List Stmt :=
  [⟨"k", "  let v1: f32 = node_k_x();"⟩, ⟨"k", "  let v2: f32 = node_k_y();"⟩]

/-- The context after evaluating `w6Node`. -/
def w6Ctx : GenCtx :=
  { processed := {"k"}, counter := 2,
    outputVars := [("k", [("X", "v1"), ("Y", "v2")])] }

/-- C6 witness: the two-output node `k` with outputs `X`/`Y` emits exactly
two bindings calling `node_k_x` and `node_k_y` with identical arguments. -/
theorem claim6_witness :
    ∃ pre vals σ₂,
      evalInputsF (evalNode wgslBackend w6Fx 0) w6Fx wgslBackend w6Node
        w6Node.inputs
        { initCtx with processed := insert w6Node.id initCtx.processed } =
        some (pre, vals, σ₂) ∧
      w6Stmts = pre ++
        (w6Def.outputs.zip (List.range w6Def.outputs.length)).map (fun p =>
          ⟨w6Node.id, wgslBackend.bindLine (wgslBackend.typeStr p.1.type)
            ("v" ++ toString (σ₂.counter + p.2 + 1))
            ("node_" ++ stripNodeUnderscore w6Node.id ++ "_" ++
              jsToLowerCase p.1.name ++
              "(" ++ String.intercalate ", " vals ++ ")")⟩) :=
  claim6_multi_output wgslBackend w6Fx 0 w6Node initCtx w6Def
    ⟨"X", SocketType.float, none⟩ ⟨"Y", SocketType.float, none⟩ []
    w6Stmts w6Ctx (by decide) rfl (by decide) (by decide) rfl (by decide)

/-- Node `A` with output socket `so` (for the C8 counterexample). -/
def c8A : Node :=
  { id := "A", definitionId := "dA", inputs := [],
    outputs := [⟨"so", "A", "out", .vec3, .output, none⟩], values := [] }

/-- Node `B` with input socket `si`. -/
def c8B : Node :=
  { id := "B", definitionId := "dB",
    inputs := [⟨"si", "B", "in", .vec3, .input, none⟩], outputs := [],
    values := [] }

/-- Node `C` with output socket `co`, feeding `si` before the operation. -/
def c8C : Node :=
  { id := "C", definitionId := "dC", inputs := [],
    outputs := [⟨"co", "C", "out", .vec3, .output, none⟩], values := [] }

/-- The pre-existing connection `C.co → B.si`. -/
def c8c0 : Connection := ⟨"c0", "C", "co", "B", "si"⟩

/-- The C8 counterexample graph. -/
def c8Graph : NodeGraph :=
  ⟨[("A", c8A), ("B", c8B), ("C", c8C)], [("c0", c8c0)]⟩

/-- C8 counterexample: calling the use case with the socket arguments
reversed — `fromSocketId` the input socket `si` (which already has the
incoming connection `c0`) and `toSocketId` the output socket `so` — succeeds
(`canConnectTo` only requires the directions to differ, and
`Connection.create` swaps the pair), creates a connection whose destination
input socket is `si`, yet removes only connections involving `so`; the prior
feed of `si` survives and `si` ends up with two incoming connections. -/
theorem claim8_counterexample :
    feedingConnections c8Graph "si" = [c8c0] ∧
    (CreateConnectionUseCase.execute c8Graph "si" "so" "new1").1.isOk = true ∧
    (feedingConnections
      (CreateConnectionUseCase.execute c8Graph "si" "so" "new1").2 "si").length = 2 := by
  refine ⟨by decide, by decide, by decide⟩

theorem getSocket_id (n : Node) (sid : String) (s : Socket)
    (h : n.getSocket sid = some s) : s.id = sid := by
  unfold Node.getSocket at h
  have := List.find?_some h
  simpa using this

theorem graph_getSocket_id (g : NodeGraph) (sid : String) (s : Socket)
    (h : g.getSocket sid = some s) : s.id = sid := by
  unfold NodeGraph.getSocket at h
  obtain ⟨n, _, hn⟩ := List.exists_of_findSome?_eq_some h
  exact getSocket_id n sid s hn

theorem removals_connections (existing : List Connection) :
    ∀ g : NodeGraph,
      (existing.foldl (fun gg c => gg.removeConnection c.id) g).connections =
        g.connections.filter
          (fun p => !(existing.any (fun c => c.id == p.1))) ∧
      (existing.foldl (fun gg c => gg.removeConnection c.id) g).nodes = g.nodes := by
  induction existing with
  | nil =>
    intro g
    simp
  | cons c cs ih =>
    intro g
    rcases ih (g.removeConnection c.id) with ⟨h1, h2⟩
    constructor
    · rw [List.foldl_cons, h1]
      show (jsMapDelete g.connections c.id).filter _ = _
      unfold jsMapDelete
      rw [List.filter_filter]
      apply List.filter_congr
      intro p _
      by_cases hpk : p.1 = c.id
      · simp [hpk]
      · have h3 : (p.1 != c.id) = true := by simpa using hpk
        have h4 : (c.id == p.1) = false := by
          simp only [beq_eq_false_iff_ne, ne_eq]
          exact fun hh => hpk hh.symm
        simp [h3, h4]
    · rw [List.foldl_cons, h2]
      rfl

theorem feeding_after_removals (g : NodeGraph) (toId : String)
    (hkeys : ∀ p ∈ g.connections, p.2.id = p.1) :
    feedingConnections
      ((g.getConnectionsBySocketId toId).foldl
        (fun gg c => gg.removeConnection c.id) g) toId = [] := by
  rcases removals_connections (g.getConnectionsBySocketId toId) g with ⟨h1, _⟩
  unfold feedingConnections
  rw [h1]
  rw [List.filter_eq_nil_iff]
  intro cv hcv
  unfold jsMapValues at hcv
  obtain ⟨p, hp, hpv⟩ := List.mem_map.mp hcv
  have hp2 := List.mem_filter.mp hp
  intro hfeed
  have hinv : p.2 ∈ g.getConnectionsBySocketId toId := by
    unfold NodeGraph.getConnectionsBySocketId
    rw [List.mem_filter]
    constructor
    · unfold jsMapValues
      exact List.mem_map.mpr ⟨p, hp2.1, rfl⟩
    · unfold Connection.involvesSocket
      rw [hpv]
      simp only [Bool.or_eq_true]
      right
      exact hfeed
  have hany : (g.getConnectionsBySocketId toId).any
      (fun c => c.id == p.1) = true := by
    rw [List.any_eq_true]
    refine ⟨p.2, hinv, ?_⟩
    rw [hkeys p hp2.1]
    simp
  rw [hany] at hp2
  exact absurd hp2.2 (by simp)

theorem filter_values_replace_eq (k : String) (v : Connection)
    (P : Connection → Bool) (hP : P v = true) :
    ∀ l : List (String × Connection),
      (∀ p ∈ l, P p.2 = false) → (l.map Prod.fst).Nodup →
      (l.find? (fun p => p.1 == k)).isSome = true →
      ((l.map (fun p => if p.1 == k then (k, v) else p)).map
        (fun p => p.2)).filter P = [v] := by
  intro l
  induction l with
  | nil => intro _ _ hf; simp [List.find?] at hf
  | cons q rest ih =>
    intro hl hnodup hf
    by_cases hq : q.1 = k
    · have hqb : (q.1 == k) = true := by simpa using hq
      simp only [List.map_cons, hqb, if_true, List.filter_cons]
      rw [hP]
      simp only [if_true]
      have hrest : ((rest.map (fun p => if p.1 == k then (k, v) else p)).map
          (fun p => p.2)).filter P = [] := by
        rw [List.filter_eq_nil_iff]
        intro c hc
        obtain ⟨p, hp, hpv⟩ := List.mem_map.mp (by
          rw [List.map_map] at hc
          exact hc)
        have hpk : (p.1 == k) = false := by
          rw [beq_eq_false_iff_ne]
          intro hpk
          have := (List.nodup_cons.mp hnodup).1
          exact this (by
            rw [hq, ← hpk]
            exact List.mem_map.mpr ⟨p, hp, rfl⟩)
        simp only [Function.comp_def, hpk, Bool.false_eq_true, if_false] at hpv
        rw [← hpv]
        simp [hl p (List.mem_cons_of_mem q hp)]
      rw [List.map_map] at hrest ⊢
      rw [hrest]
    · have hqb : (q.1 == k) = false := by simpa using hq
      simp only [List.map_cons, hqb, Bool.false_eq_true, if_false,
        List.filter_cons]
      rw [hl q (List.mem_cons_self q rest)]
      simp only [Bool.false_eq_true, if_false]
      apply ih
      · intro p hp
        exact hl p (List.mem_cons_of_mem q hp)
      · exact (List.nodup_cons.mp hnodup).2
      · rw [List.find?_cons] at hf
        simpa [hqb] using hf

theorem feeding_addConnection (g₁ : NodeGraph) (conn : Connection)
    (hfeed : feedingConnections g₁ conn.toSocketId = [])
    (hnodup : (g₁.connections.map Prod.fst).Nodup) :
    feedingConnections (g₁.addConnection conn) conn.toSocketId = [conn] := by
  unfold NodeGraph.addConnection feedingConnections jsMapSet
  have hall : ∀ p ∈ g₁.connections,
      (fun c => c.toSocketId == conn.toSocketId) p.2 = false := by
    intro p hp
    have : p.2 ∈ feedingConnections g₁ conn.toSocketId ∨
        (p.2.toSocketId == conn.toSocketId) = false := by
      by_cases hc : (p.2.toSocketId == conn.toSocketId) = true
      · left
        unfold feedingConnections
        rw [List.mem_filter]
        exact ⟨List.mem_map.mpr ⟨p, hp, rfl⟩, hc⟩
      · right
        revert hc
        cases p.2.toSocketId == conn.toSocketId <;> simp
    rcases this with hmem | hfalse
    · rw [hfeed] at hmem
      exact absurd hmem (List.not_mem_nil _)
    · exact hfalse
  split
  · rename_i hfind
    exact filter_values_replace_eq conn.id conn _ (by simp) g₁.connections
      hall hnodup hfind
  · show ((jsMapValues (g₁.connections ++ [(conn.id, conn)])).filter _) = _
    unfold jsMapValues
    rw [List.map_append, List.filter_append]
    have h1 : (g₁.connections.map (fun p => p.2)).filter
        (fun c => c.toSocketId == conn.toSocketId) = [] := by
      rw [List.filter_eq_nil_iff]
      intro c hc
      obtain ⟨p, hp, hpv⟩ := List.mem_map.mp hc
      rw [← hpv]
      simp [hall p hp]
    rw [h1]
    simp

theorem filter_values_replace_le (k : String) (v : Connection)
    (P : Connection → Bool) (hP : P v = false) :
    ∀ l : List (String × Connection),
      (((l.map (fun p => if p.1 == k then (k, v) else p)).map
        (fun p => p.2)).filter P).length ≤
      ((l.map (fun p => p.2)).filter P).length := by
  intro l
  induction l with
  | nil => simp
  | cons q rest ih =>
    by_cases hq : (q.1 == k) = true
    · simp only [List.map_cons, hq, if_true, List.filter_cons, hP,
        Bool.false_eq_true, if_false]
      rcases hPq : P q.2 with _ | _
      · simpa using ih
      · simp only [if_true, List.length_cons]
        exact Nat.le_trans ih (Nat.le_succ _)
    · have hqb : (q.1 == k) = false := by
        revert hq
        cases q.1 == k <;> simp
      simp only [List.map_cons, hqb, Bool.false_eq_true, if_false,
        List.filter_cons]
      rcases hPq : P q.2 with _ | _
      · simpa using ih
      · simp only [if_true, List.length_cons]
        exact Nat.succ_le_succ ih

theorem feeding_removals_le (g : NodeGraph) (toId sid : String) :
    (feedingConnections
      ((g.getConnectionsBySocketId toId).foldl
        (fun gg c => gg.removeConnection c.id) g) sid).length ≤
    (feedingConnections g sid).length := by
  rcases removals_connections (g.getConnectionsBySocketId toId) g with ⟨h1, _⟩
  unfold feedingConnections jsMapValues
  rw [h1]
  exact ((((List.filter_sublist _).map
    (fun p : String × Connection => p.2)).filter _).length_le)

/-- C8 (amended): for a well-formed graph (connection-map keys are the
connection ids and are duplicate-free), a successful
`CreateConnectionUseCase.execute` call whose `toSocketId` argument is the
input-side socket removes exactly the existing connections of that socket
(returned as `deletedConnections`) — in particular every prior feed of the
input socket — and adds the new connection, so the input socket ends with
exactly the new connection and the at-most-one-incoming invariant is
preserved for every input socket.  Moreover whether the call throws does not
depend on the existing connections at all: a conflict is never an error.
(When the caller passes the sockets reversed, none of this is guaranteed —
see the counterexample.) -/
theorem claim8_replace_on_conflict (g : NodeGraph) (fromId toId newId : String)
    (toS : Socket) (conn : Connection) (deleted : List Connection)
    (hkeys : ∀ p ∈ g.connections, p.2.id = p.1)
    (hnodup : (g.connections.map Prod.fst).Nodup)
    (hto : g.getSocket toId = some toS)
    (hdir : toS.direction = .input)
    (h : (CreateConnectionUseCase.execute g fromId toId newId).1 =
      .ok (conn, deleted)) :
    deleted = g.getConnectionsBySocketId toId ∧
    (∀ c ∈ feedingConnections g toId, c ∈ deleted) ∧
    conn.toSocketId = toId ∧
    feedingConnections
      (CreateConnectionUseCase.execute g fromId toId newId).2 toId = [conn] ∧
    ((∀ sid, (feedingConnections g sid).length ≤ 1) →
      ∀ sid, (feedingConnections
        (CreateConnectionUseCase.execute g fromId toId newId).2 sid).length ≤ 1) ∧
    (∀ conns₂ : List (String × Connection),
      ((CreateConnectionUseCase.execute ⟨g.nodes, conns₂⟩ fromId toId newId).1).isOk =
      ((CreateConnectionUseCase.execute g fromId toId newId).1).isOk) := by
  unfold CreateConnectionUseCase.execute at h ⊢
  rcases hfromEq : g.getSocket fromId with _ | fromS
  · rw [hfromEq, hto] at h
    exact absurd h (by simp)
  · rw [hfromEq, hto] at h
    rw [hto]
    simp only at h ⊢
    rcases hcr : Connection.create newId fromS toS with e | c <;> rw [hcr] at h
    · exact absurd h (by simp)
    · simp only at h ⊢
      simp only [Except.ok.injEq, Prod.mk.injEq] at h
      obtain ⟨hconn, hdel⟩ := h
      subst hconn
      subst hdel
      have hcan : fromS.canConnectTo toS = true := by
        by_cases hcc : fromS.canConnectTo toS = true
        · exact hcc
        · have hf : fromS.canConnectTo toS = false := by
            revert hcc
            cases fromS.canConnectTo toS <;> simp
          unfold Connection.create at hcr
          rw [hf] at hcr
          simp at hcr
      have hparts := (canConnectTo_iff fromS toS).mp hcan
      have hfromdir : fromS.direction = .output := by
        rcases hfd : fromS.direction
        · exact absurd (hfd.trans hdir.symm) hparts.2.1
        · rfl
      have htoid : toS.id = toId := graph_getSocket_id g toId toS hto
      have hd1 : (fromS.direction == SocketDirection.output) = true := by
        rw [hfromdir]
        rfl
      have hd2 : (fromS.direction == SocketDirection.input) = false := by
        rw [hfromdir]
        rfl
      have hnid : (fromS.nodeId == toS.nodeId) = false := by
        simpa using hparts.1
      have hc : c = ⟨newId, fromS.nodeId, fromS.id, toS.nodeId, toS.id⟩ := by
        unfold Connection.create Connection.mkChecked at hcr
        rw [hcan] at hcr
        simp only [Bool.not_true, Bool.false_eq_true, if_false, hd1, hd2, if_true,
          hnid, Except.ok.injEq] at hcr
        exact hcr.symm
      subst hc
      simp only []
      have hctoid : (⟨newId, fromS.nodeId, fromS.id, toS.nodeId, toS.id⟩ :
          Connection).toSocketId = toId := htoid
      have hg1nodup :
          ((((g.getConnectionsBySocketId toId).foldl
            (fun gg c => gg.removeConnection c.id) g).connections.map
              Prod.fst).Nodup) := by
        rcases removals_connections (g.getConnectionsBySocketId toId) g with ⟨h1, _⟩
        rw [h1]
        exact ((List.filter_sublist _).map Prod.fst).nodup hnodup
      have hfeed0 : feedingConnections
          ((g.getConnectionsBySocketId toId).foldl
            (fun gg c => gg.removeConnection c.id) g)
          (⟨newId, fromS.nodeId, fromS.id, toS.nodeId, toS.id⟩ :
            Connection).toSocketId = [] := by
        rw [hctoid]
        exact feeding_after_removals g toId hkeys
      have hfeed4 := feeding_addConnection _ _ hfeed0 hg1nodup
      rw [hctoid] at hfeed4
      refine ⟨by trivial, ?_, htoid, hfeed4, ?_, ?_⟩
      · intro cv hcv
        unfold feedingConnections at hcv
        unfold NodeGraph.getConnectionsBySocketId
        rw [List.mem_filter] at hcv ⊢
        refine ⟨hcv.1, ?_⟩
        unfold Connection.involvesSocket
        rw [Bool.or_eq_true]
        right
        exact hcv.2
      · intro hinv sid
        by_cases hsid : sid = toId
        · rw [hsid, hfeed4]
          simp
        · have hple : ((⟨newId, fromS.nodeId, fromS.id, toS.nodeId, toS.id⟩ :
              Connection).toSocketId == sid) = false := by
            show (toS.id == sid) = false
            rw [htoid]
            simp only [beq_eq_false_iff_ne, ne_eq]
            exact fun hh => hsid hh.symm
          refine Nat.le_trans ?_ (Nat.le_trans (feeding_removals_le g toId sid)
            (hinv sid))
          unfold NodeGraph.addConnection feedingConnections jsMapSet
          split
          · exact filter_values_replace_le _ _ _ hple _
          · show ((jsMapValues (_ ++ [_])).filter _).length ≤ _
            unfold jsMapValues
            rw [List.map_append, List.filter_append]
            simp only [List.map_cons, List.map_nil, List.filter_cons, hple,
              Bool.false_eq_true, if_false, List.filter_nil, List.append_nil,
              le_refl]
      · intro conns₂
        have hf2 : NodeGraph.getSocket ⟨g.nodes, conns₂⟩ fromId = some fromS :=
          hfromEq
        have ht2 : NodeGraph.getSocket ⟨g.nodes, conns₂⟩ toId = some toS := hto
        rw [hf2, ht2]
        simp only
        rw [hcr]
        rfl

/-- The connection created by the canonical-order witness call. -/
def w8new : Connection := ⟨"n1", "A", "so", "B", "si"⟩

/-- C8 witness: a canonical-order call (`fromSocketId` the output `so`,
`toSocketId` the input `si`) on the graph where `si` is already fed by `c0`
succeeds, reports `c0` as deleted, and leaves `si` fed by exactly the new
connection. -/
theorem claim8_witness :
    (CreateConnectionUseCase.execute c8Graph "so" "si" "n1").1 =
      .ok (w8new, [c8c0]) ∧
    feedingConnections
      (CreateConnectionUseCase.execute c8Graph "so" "si" "n1").2 "si" = [w8new] :=
  ⟨rfl,
    (claim8_replace_on_conflict c8Graph "so" "si" "n1"
      ⟨"si", "B", "in", .vec3, .input, none⟩ w8new [c8c0]
      (by decide) (by decide) (by decide) rfl rfl).2.2.2.1⟩

/-- The sink node of the C7 chain. -/
def c7sink : Node :=
  { id := "s", definitionId := "output_color",
    inputs := [⟨"sc", "s", "Color", .color, .input, none⟩,
      ⟨"sa", "s", "Alpha", .float, .input, none⟩],
    outputs := [], values := [] }

/-- Node `B` of definition `add`, feeding the sink. -/
def c7B : Node :=
  { id := "B", definitionId := "add",
    inputs := [⟨"Ba", "B", "a", .float, .input, none⟩],
    outputs := [⟨"Bo", "B", "o", .float, .output, none⟩], values := [] }

/-- Node `A`, a second instance of definition `add`, feeding `B`. -/
def c7A : Node :=
  { id := "A", definitionId := "add",
    inputs := [⟨"Aa", "A", "a", .float, .input, none⟩],
    outputs := [⟨"Ao", "A", "o", .float, .output, none⟩], values := [] }

/-- Node `C` of definition `uv`, feeding `A`. -/
def c7C : Node :=
  { id := "C", definitionId := "uv", inputs := [],
    outputs := [⟨"Co", "C", "o", .float, .output, none⟩], values := [] }

/-- The C7 node list (sink, B, A, C). -/
def c7nodes : List Node := [c7sink, c7B, c7A, c7C]

/-- The C7 connections: `C → A → B → sink`. -/
def c7conns : List Connection :=
  [⟨"cb", "B", "Bo", "s", "sc"⟩, ⟨"ca", "A", "Ao", "B", "Ba"⟩,
    ⟨"cc", "C", "Co", "A", "Aa"⟩]

/-- The C7 catalog (WGSL side): `add` and `uv` both carry code templates;
the sink definition has none. -/
def c7cat : String → Option (NodeDef String)
  | "output_color" => some
      { inputs := [⟨"Color", .color, none⟩, ⟨"Alpha", .float, none⟩],
        outputs := [], code := "" }
  | "add" => some
      { inputs := [⟨"a", .float, none⟩], outputs := [⟨"o", .float, none⟩],
        code := "fn node_\x7b\x7bid\x7d\x7d(a: f32) -> f32 \x7b return a; \x7d" }
  | "uv" => some
      { inputs := [], outputs := [⟨"o", .float, none⟩],
        code := "fn node_\x7b\x7bid\x7d\x7d() -> f32 \x7b return 0.0; \x7d" }
  | _ => none

/-- The node map of the C7 graph. -/
def c7nm : List (String × Node) := (buildFx c7cat c7nodes c7conns).nm

/-- The connection map of the C7 graph. -/
def c7cm : List (String × Connection) := (buildFx c7cat c7nodes c7conns).cm

/-- C7 failing input (code bug): in the chain `C(uv) → A(add) → B(add) →
sink`, `collectUsedDefinitions` prunes recursion on the *definition id* of
the source node, so when it reaches `A` (whose definition `add` is already
collected via `B`) it never descends to `C`, and the used-definition set
misses `uv`.  The declaration list therefore contains only the two `add`
instantiations, while the emitted body still calls `node_C()` — a reference
to a function that is never declared, contradicting the claim (and the
code's own "collect all needed function definitions" intent). -/
theorem claim7_missing_declaration :
    collectUsedDefinitions c7nm c7cm 5 c7sink [] = ["output_color", "add"] ∧
    wgslDecls c7cat c7nm (collectUsedDefinitions c7nm c7cm 5 c7sink []) =
      ["fn node_B(a: f32) -> f32 \x7b return a; \x7d",
       "fn node_A(a: f32) -> f32 \x7b return a; \x7d"] ∧
    generateBody wgslBackend c7cat c7nodes c7conns = some
      [⟨"C", "  let v1: f32 = node_C();"⟩,
       ⟨"A", "  let v2: f32 = node_A(v1);"⟩,
       ⟨"B", "  let v3: f32 = node_B(v2);"⟩,
       ⟨"s", "  let finalColor = vec4f(v3, 0.0);"⟩] := by
  refine ⟨by decide, by decide, by decide⟩

/-! ### Dependency-first ordering of the emitted body (claim C4) -/

/-- Closedness of a visited set under direct dependency, relative to a
"gray" set `G` of nodes whose evaluation is still in progress (the call
stack of the depth-first traversal). -/
def HClosedG (nm : List (String × Node)) (cm : List (String × Connection))
    (S G : Finset String) : Prop :=
  ∀ w ∈ S, w ∉ G → ∀ m, directDepB nm cm w m = true → m ∈ S ∨ m ∈ G

/-- Dependency-first ordering of a statement list: no statement is followed
by a statement of a node it transitively depends on. -/
def OrdSpec (nm : List (String × Node)) (cm : List (String × Connection))
    (L : List Stmt) : Prop :=
  L.Pairwise (fun x y => ¬ TransDep nm cm x.owner y.owner)

/-- The key set of the node map. -/
def keysFinset (nm : List (String × Node)) : Finset String :=
  (nm.map Prod.fst).toFinset

/-- Number of map keys not yet visited (the fuel bound). -/
def unproc (nm : List (String × Node)) (σ : GenCtx) : Nat :=
  (keysFinset nm \ σ.processed).card

/-- Invariant package for one `evalNode` call. -/
structure NodeConcl (nm : List (String × Node)) (cm : List (String × Connection))
    (n : Node) (σ σ' : GenCtx) (L : List Stmt) (G : Finset String) : Prop where
  mono : σ.processed ⊆ σ'.processed
  self_mem : n.id ∈ σ'.processed
  owners_new : ∀ s ∈ L, s.owner ∉ σ.processed
  owners_reach : ∀ s ∈ L, s.owner = n.id ∨ TransDep nm cm n.id s.owner
  closed : HClosedG nm cm σ'.processed G
  deps_done : ∀ s ∈ L, ∀ m, TransDep nm cm s.owner m → m ∈ σ'.processed
  ord : OrdSpec nm cm L

/-- Invariant package for the input loop (`evalInputsF`) of node `n` over a
suffix `ins` of its inputs. -/
structure InputsConcl (nm : List (String × Node)) (cm : List (String × Connection))
    (n : Node) (ins : List Socket) (σ σ' : GenCtx) (L : List Stmt)
    (G : Finset String) : Prop where
  mono : σ.processed ⊆ σ'.processed
  owners_new : ∀ s ∈ L, s.owner ∉ σ.processed
  owners_reach : ∀ s ∈ L, TransDep nm cm n.id s.owner
  closed : HClosedG nm cm σ'.processed (insert n.id G)
  deps_done : ∀ s ∈ L, ∀ m, TransDep nm cm s.owner m → m ∈ σ'.processed
  ord : OrdSpec nm cm L
  srcs_done : ∀ inp ∈ ins, ∀ c, findInputConnection cm n.id inp.id = some c →
    ∀ src, jsMapGet nm c.fromNodeId = some src → src.id ∈ σ'.processed

theorem mapGet_mem {α : Type} (m : List (String × α)) (k : String) (v : α)
    (h : jsMapGet m k = some v) : (k, v) ∈ m := by
  unfold jsMapGet at h
  rcases hf : m.find? (fun p => p.1 == k) with _ | p
  · rw [hf] at h
    exact absurd h (by simp)
  · rw [hf] at h
    simp only [Option.map_some', Option.some.injEq] at h
    have hp := List.find?_some hf
    have hmem := List.mem_of_find?_eq_some hf
    have : p.1 = k := by simpa using hp
    have : p = (k, v) := by
      rw [Prod.ext_iff]
      exact ⟨this, h⟩
    rw [← this]
    exact hmem

theorem directDepB_mem_keys (nm : List (String × Node))
    (cm : List (String × Connection)) (a c : String)
    (h : directDepB nm cm a c = true) :
    a ∈ nm.map Prod.fst ∧ c ∈ nm.map Prod.fst := by
  unfold directDepB at h
  rcases hget : jsMapGet nm a with _ | nd
  · rw [hget] at h
    exact absurd h (by simp)
  · rw [hget] at h
    rw [List.any_eq_true] at h
    obtain ⟨inp, _, hinp⟩ := h
    constructor
    · exact List.mem_map.mpr ⟨(a, nd), mapGet_mem nm a nd hget, rfl⟩
    · rcases hfind : findInputConnection cm nd.id inp.id with _ | cc <;>
        rw [hfind] at hinp
      · exact absurd hinp (by simp)
      · rw [Bool.and_eq_true] at hinp
        have h2 := hinp.2
        rw [Option.isSome_iff_exists] at h2
        obtain ⟨src, hsrc⟩ := h2
        exact List.mem_map.mpr ⟨(c, src), mapGet_mem nm c src hsrc, rfl⟩

theorem directDepB_intro (nm : List (String × Node))
    (cm : List (String × Connection))
    (hkeys : ∀ p ∈ nm, p.2.id = p.1)
    (n : Node) (inp : Socket) (c : Connection) (src : Node)
    (hn : jsMapGet nm n.id = some n)
    (hinp : inp ∈ n.inputs)
    (hfind : findInputConnection cm n.id inp.id = some c)
    (hsrc : jsMapGet nm c.fromNodeId = some src) :
    directDepB nm cm n.id src.id = true := by
  have hsid : src.id = c.fromNodeId :=
    hkeys (c.fromNodeId, src) (mapGet_mem nm c.fromNodeId src hsrc)
  unfold directDepB
  rw [hn, List.any_eq_true]
  refine ⟨inp, hinp, ?_⟩
  rw [hfind]
  rw [Bool.and_eq_true]
  constructor
  · simp [hsid]
  · rw [hsid, hsrc]
    rfl

theorem directDepB_elim (nm : List (String × Node))
    (cm : List (String × Connection)) (a m : String) (nd : Node)
    (hnd : jsMapGet nm a = some nd)
    (h : directDepB nm cm a m = true) :
    ∃ inp ∈ nd.inputs, ∃ c, findInputConnection cm nd.id inp.id = some c ∧
      c.fromNodeId = m ∧ ∃ src, jsMapGet nm m = some src := by
  unfold directDepB at h
  rw [hnd, List.any_eq_true] at h
  obtain ⟨inp, hinp, hb⟩ := h
  refine ⟨inp, hinp, ?_⟩
  rcases hfind : findInputConnection cm nd.id inp.id with _ | c <;>
    rw [hfind] at hb
  · exact absurd hb (by simp)
  · rw [Bool.and_eq_true] at hb
    have h1 : c.fromNodeId = m := by simpa using hb.1
    have h2 := hb.2
    rw [Option.isSome_iff_exists] at h2
    obtain ⟨src, hsrc⟩ := h2
    exact ⟨c, rfl, h1, src, hsrc⟩

theorem rank_lt_of_transDep (nm : List (String × Node))
    (cm : List (String × Connection)) (rank : String → Nat)
    (hrank : ∀ a c, directDepB nm cm a c = true → rank c < rank a)
    (a c : String) (h : TransDep nm cm a c) : rank c < rank a := by
  induction h with
  | single hd => exact hrank _ _ hd
  | tail _ hd ih => exact Nat.lt_trans (hrank _ _ hd) ih

theorem no_self_transDep (nm : List (String × Node))
    (cm : List (String × Connection)) (rank : String → Nat)
    (hrank : ∀ a c, directDepB nm cm a c = true → rank c < rank a)
    (a : String) : ¬ TransDep nm cm a a := fun h =>
  Nat.lt_irrefl _ (rank_lt_of_transDep nm cm rank hrank a a h)

theorem chain_closed (nm : List (String × Node))
    (cm : List (String × Connection)) (rank : String → Nat)
    (hrank : ∀ a c, directDepB nm cm a c = true → rank c < rank a)
    (S G : Finset String) (nid : String)
    (hG : ∀ g ∈ G, TransDep nm cm g nid)
    (hcl : HClosedG nm cm S (insert nid G))
    (hbase : ∀ m, directDepB nm cm nid m = true → m ∈ S) :
    ∀ m, TransDep nm cm nid m → m ∈ S := by
  intro m h
  induction h with
  | single hd => exact hbase _ hd
  | tail hpre hd ih =>
    rename_i m' m
    have hm' : m' ∈ S := ih
    have hnotin : m' ∉ insert nid G := by
      rw [Finset.mem_insert]
      rintro (rfl | hg)
      · exact no_self_transDep nm cm rank hrank _ hpre
      · exact no_self_transDep nm cm rank hrank m' ((hG m' hg).trans hpre)
    rcases hcl m' hm' hnotin m hd with hS | hins
    · exact hS
    · rw [Finset.mem_insert] at hins
      have hchain : TransDep nm cm nid m := hpre.tail hd
      rcases hins with rfl | hg
      · exact absurd hchain (no_self_transDep nm cm rank hrank m)
      · exact absurd ((hG m hg).trans hchain)
          (no_self_transDep nm cm rank hrank m)

theorem mem_keysFinset_of_get (nm : List (String × Node)) (k : String)
    (v : Node) (h : jsMapGet nm k = some v) : k ∈ keysFinset nm := by
  unfold keysFinset
  rw [List.mem_toFinset]
  exact List.mem_map.mpr ⟨(k, v), mapGet_mem nm k v h, rfl⟩

theorem unproc_mono (nm : List (String × Node)) (σ σ' : GenCtx)
    (h : σ.processed ⊆ σ'.processed) : unproc nm σ' ≤ unproc nm σ :=
  Finset.card_le_card (Finset.sdiff_subset_sdiff (Finset.Subset.refl _) h)

theorem unproc_insert_lt (nm : List (String × Node)) (σ : GenCtx) (k : String)
    (hk : k ∈ keysFinset nm) (hnot : k ∉ σ.processed) :
    unproc nm { σ with processed := insert k σ.processed } < unproc nm σ := by
  have hsub : keysFinset nm \ insert k σ.processed ⊆ keysFinset nm \ σ.processed :=
    Finset.sdiff_subset_sdiff (Finset.Subset.refl _) (Finset.subset_insert _ _)
  have hss : keysFinset nm \ insert k σ.processed ⊂ keysFinset nm \ σ.processed := by
    rw [Finset.ssubset_iff_of_subset hsub]
    refine ⟨k, Finset.mem_sdiff.mpr ⟨hk, hnot⟩, ?_⟩
    rw [Finset.mem_sdiff]
    rintro ⟨-, hni⟩
    exact hni (Finset.mem_insert_self _ _)
  exact Finset.card_lt_card hss

theorem jsMapSet_mem {α : Type} (m : List (String × α)) (k : String) (v : α)
    (p : String × α) (hp : p ∈ jsMapSet m k v) : p ∈ m ∨ p = (k, v) := by
  unfold jsMapSet at hp
  split at hp
  · rw [List.mem_map] at hp
    obtain ⟨q, hq, hqe⟩ := hp
    subst hqe
    split
    · right; rfl
    · left; exact hq
  · rw [List.mem_append] at hp
    rcases hp with h | h
    · left; exact h
    · right; simpa using h

theorem foldl_set_mem {α : Type} (key : α → String) (P : α → Prop) :
    ∀ (l : List α) (acc : List (String × α)),
      (∀ q ∈ acc, q.1 = key q.2 ∧ P q.2) → (∀ x ∈ l, P x) →
      ∀ p ∈ l.foldl (fun m x => jsMapSet m (key x) x) acc,
        p.1 = key p.2 ∧ P p.2 := by
  intro l
  induction l with
  | nil => intro acc hacc _ p hp; exact hacc p hp
  | cons x xs ih =>
    intro acc hacc hl p hp
    refine ih (jsMapSet acc (key x) x) ?_
      (fun y hy => hl y (List.mem_cons_of_mem _ hy)) p hp
    intro q hq
    rcases jsMapSet_mem acc (key x) x q hq with h | rfl
    · exact hacc q h
    · exact ⟨rfl, hl x (List.mem_cons_self x xs)⟩

theorem jsMapFromList_mem {α : Type} (key : α → String) (l : List α)
    (p : String × α) (hp : p ∈ jsMapFromList key l) :
    p.1 = key p.2 ∧ p.2 ∈ l :=
  foldl_set_mem key (fun x => x ∈ l) l [] (by simp) (fun _ hx => hx) p hp

theorem jsMapFromList_eq_of_nodup {α : Type} (key : α → String) :
    ∀ (l : List α) (acc : List (String × α)), (l.map key).Nodup →
      (∀ x ∈ l, ∀ q ∈ acc, q.1 ≠ key x) →
      l.foldl (fun m x => jsMapSet m (key x) x) acc =
        acc ++ l.map (fun x => (key x, x)) := by
  intro l
  induction l with
  | nil => intro acc _ _; simp
  | cons x xs ih =>
    intro acc hnd hdis
    have hfind : acc.find? (fun p => p.1 == key x) = none := by
      rw [List.find?_eq_none]
      intro q hq
      simpa using hdis x (List.mem_cons_self x xs) q hq
    have hset : jsMapSet acc (key x) x = acc ++ [(key x, x)] := by
      unfold jsMapSet
      rw [hfind]
      rfl
    rw [List.map_cons, List.nodup_cons] at hnd
    have hstep : (x :: xs).foldl (fun m y => jsMapSet m (key y) y) acc =
        xs.foldl (fun m y => jsMapSet m (key y) y) (acc ++ [(key x, x)]) := by
      rw [List.foldl_cons, hset]
    rw [hstep, ih (acc ++ [(key x, x)]) hnd.2 ?_]
    · simp
    · intro y hy q hq
      rcases List.mem_append.mp hq with h | h
      · exact hdis y (List.mem_cons_of_mem _ hy) q h
      · have : q = (key x, x) := by simpa using h
        rw [this]
        intro hkk
        exact hnd.1 (List.mem_map.mpr ⟨y, hy, hkk.symm⟩)

theorem jsMapGet_fromList_nodup {α : Type} (key : α → String) (l : List α)
    (hnd : (l.map key).Nodup) (x : α) (hx : x ∈ l) :
    jsMapGet (jsMapFromList key l) (key x) = some x := by
  unfold jsMapFromList
  rw [jsMapFromList_eq_of_nodup key l [] hnd (by simp), List.nil_append]
  induction l with
  | nil => cases hx
  | cons y ys ih =>
    rw [List.map_cons, List.nodup_cons] at hnd
    by_cases hb : key y = key x
    · rcases List.mem_cons.mp hx with rfl | hxs
      · unfold jsMapGet
        rw [List.map_cons, List.find?_cons_of_pos]
        · rfl
        · simp
      · exact absurd (hb ▸ List.mem_map.mpr ⟨x, hxs, rfl⟩) hnd.1
    · have hx' : x ∈ ys := by
        rcases List.mem_cons.mp hx with rfl | h
        · exact absurd rfl hb
        · exact h
      have hrec := ih hnd.2 hx'
      unfold jsMapGet at hrec ⊢
      rw [List.map_cons, List.find?_cons_of_neg]
      · exact hrec
      · simpa using hb

theorem jsMapSet_length {α : Type} (m : List (String × α)) (k : String)
    (v : α) : (jsMapSet m k v).length ≤ m.length + 1 := by
  unfold jsMapSet
  split
  · rw [List.length_map]; exact Nat.le_succ _
  · rw [List.length_append]; rfl

theorem jsMapFromList_length {α : Type} (key : α → String) :
    ∀ (l : List α) (acc : List (String × α)),
      (l.foldl (fun m x => jsMapSet m (key x) x) acc).length ≤
        acc.length + l.length := by
  intro l
  induction l with
  | nil => intro acc; simp
  | cons x xs ih =>
    intro acc
    calc (xs.foldl (fun m y => jsMapSet m (key y) y)
            (jsMapSet acc (key x) x)).length
        ≤ (jsMapSet acc (key x) x).length + xs.length := ih _
      _ ≤ acc.length + 1 + xs.length :=
          Nat.add_le_add_right (jsMapSet_length acc (key x) x) _
      _ = acc.length + (x :: xs).length := by
          rw [List.length_cons]; omega

theorem unproc_init_le (nodes : List Node) :
    unproc (jsMapFromList (fun n => n.id) nodes) initCtx ≤ nodes.length := by
  unfold unproc initCtx
  have h1 : keysFinset (jsMapFromList (fun n => n.id) nodes) \
      (∅ : Finset String) = keysFinset (jsMapFromList (fun n => n.id) nodes) :=
    Finset.sdiff_empty
  rw [h1]
  unfold keysFinset
  calc ((jsMapFromList (fun n => n.id) nodes).map Prod.fst).toFinset.card
      ≤ ((jsMapFromList (fun n => n.id) nodes).map Prod.fst).length :=
        List.toFinset_card_le _
    _ = (jsMapFromList (fun n => n.id) nodes).length := List.length_map _ _
    _ ≤ 0 + nodes.length := by
        unfold jsMapFromList
        exact jsMapFromList_length (fun n => n.id) nodes []
    _ = nodes.length := Nat.zero_add _

theorem ordSpec_const (nm : List (String × Node))
    (cm : List (String × Connection)) (nid : String) (M : List Stmt)
    (hM : ∀ s ∈ M, s.owner = nid) (hirr : ¬ TransDep nm cm nid nid) :
    OrdSpec nm cm M := by
  unfold OrdSpec
  induction M with
  | nil => exact List.Pairwise.nil
  | cons s rest ih =>
    refine List.Pairwise.cons ?_ (ih (fun t ht => hM t (List.mem_cons_of_mem _ ht)))
    intro t ht hdep
    rw [hM s (List.mem_cons_self _ _), hM t (List.mem_cons_of_mem _ ht)] at hdep
    exact hirr hdep

theorem emitOutputs_owner_all (b : Backend) (owner nodeIdStr args : String) :
    ∀ (outs : List SocketDef) (ctr : Nat) (vars : List (String × String)),
      ∀ s ∈ (emitOutputs b owner nodeIdStr args outs ctr vars).1,
        s.owner = owner := by
  intro outs
  induction outs with
  | nil => intro ctr vars s hs; exact absurd hs (by simp [emitOutputs])
  | cons out rest ih =>
    intro ctr vars s hs
    simp only [emitOutputs] at hs
    rcases List.mem_cons.mp hs with rfl | h
    · rfl
    · exact ih _ _ s h

theorem evalInputsF_ok {κ : Type} (b : Backend) (fx : Fx κ)
    (hkeys : ∀ p ∈ fx.nm, p.2.id = p.1) (fuel : Nat)
    (ihn : ∀ (n : Node) (σ : GenCtx) (G : Finset String) (L : List Stmt)
      (σ' : GenCtx), unproc fx.nm σ + 1 ≤ fuel →
      jsMapGet fx.nm n.id = some n →
      HClosedG fx.nm fx.cm σ.processed G →
      (∀ g ∈ G, TransDep fx.nm fx.cm g n.id) →
      evalNode b fx fuel n σ = some (L, σ') →
      NodeConcl fx.nm fx.cm n σ σ' L G) :
    ∀ (ins : List Socket) (n : Node) (σ : GenCtx) (G : Finset String)
      (L : List Stmt) (vals : List String) (σ' : GenCtx),
      (∀ inp ∈ ins, inp ∈ n.inputs) →
      unproc fx.nm σ + 1 ≤ fuel →
      jsMapGet fx.nm n.id = some n →
      HClosedG fx.nm fx.cm σ.processed (insert n.id G) →
      (∀ g ∈ G, TransDep fx.nm fx.cm g n.id) →
      evalInputsF (evalNode b fx fuel) fx b n ins σ = some (L, vals, σ') →
      InputsConcl fx.nm fx.cm n ins σ σ' L G := by
  intro ins
  induction ins with
  | nil =>
    intro n σ G L vals σ' hins hfuel hn hcl hG h
    simp only [evalInputsF, Option.some.injEq, Prod.mk.injEq] at h
    obtain ⟨hL, hv, hσ⟩ := h
    subst hL; subst hv; subst hσ
    refine ⟨Finset.Subset.refl _, ?_, ?_, hcl, ?_, List.Pairwise.nil, ?_⟩
    · intro s hs; exact absurd hs (List.not_mem_nil s)
    · intro s hs; exact absurd hs (List.not_mem_nil s)
    · intro s hs; exact absurd hs (List.not_mem_nil s)
    · intro i hi; exact absurd hi (List.not_mem_nil i)
  | cons inp rest ih =>
    intro n σ G L vals σ' hins hfuel hn hcl hG h
    simp only [evalInputsF] at h
    split at h
    · rename_i c hconn
      split at h
      · rename_i hsrcn
        have IC := ih n σ G L vals σ'
          (fun i hi => hins i (List.mem_cons_of_mem _ hi)) hfuel hn hcl hG h
        refine ⟨IC.mono, IC.owners_new, IC.owners_reach, IC.closed,
          IC.deps_done, IC.ord, ?_⟩
        intro i hi c' hc' src hsrc
        rcases List.mem_cons.mp hi with rfl | hi'
        · rw [hconn] at hc'
          injection hc' with hcc
          subst hcc
          rw [hsrcn] at hsrc
          cases hsrc
        · exact IC.srcs_done i hi' c' hc' src hsrc
      · rename_i src hsrc
        split at h
        · exact absurd h (by simp)
        · rename_i srcLines σa heval
          split at h
          · exact absurd h (by simp)
          · rename_i ls vs σb hrec
            simp only [Option.some.injEq, Prod.mk.injEq] at h
            obtain ⟨hL, hv, hσ⟩ := h
            subst hL; subst hv; subst hσ
            have hdep : directDepB fx.nm fx.cm n.id src.id = true :=
              directDepB_intro fx.nm fx.cm hkeys n inp c src hn
                (hins inp (List.mem_cons_self _ _)) hconn hsrc
            have hsrcid : jsMapGet fx.nm src.id = some src := by
              have he := hkeys (c.fromNodeId, src) (mapGet_mem _ _ _ hsrc)
              rw [he]
              exact hsrc
            have hGsub : ∀ g ∈ insert n.id G, TransDep fx.nm fx.cm g src.id := by
              intro g hg
              rcases Finset.mem_insert.mp hg with rfl | hg'
              · exact Relation.TransGen.single hdep
              · exact Relation.TransGen.tail (hG g hg') hdep
            have NC := ihn src σ (insert n.id G) srcLines σa hfuel hsrcid hcl
              hGsub heval
            have IC := ih n σa G ls vs σb
              (fun i hi => hins i (List.mem_cons_of_mem _ hi))
              (Nat.le_trans (Nat.add_le_add_right
                (unproc_mono fx.nm σ σa NC.mono) 1) hfuel)
              hn NC.closed hG hrec
            refine ⟨NC.mono.trans IC.mono, ?_, ?_, IC.closed, ?_, ?_, ?_⟩
            · intro s hs
              rcases List.mem_append.mp hs with h1 | h2
              · exact NC.owners_new s h1
              · intro hmem
                exact IC.owners_new s h2 (NC.mono hmem)
            · intro s hs
              rcases List.mem_append.mp hs with h1 | h2
              · rcases NC.owners_reach s h1 with heq | htr
                · rw [heq]
                  exact Relation.TransGen.single hdep
                · exact Relation.TransGen.head hdep htr
              · exact IC.owners_reach s h2
            · intro s hs m htr
              rcases List.mem_append.mp hs with h1 | h2
              · exact IC.mono (NC.deps_done s h1 m htr)
              · exact IC.deps_done s h2 m htr
            · unfold OrdSpec
              rw [List.pairwise_append]
              refine ⟨NC.ord, IC.ord, ?_⟩
              intro x hx y hy htr
              exact IC.owners_new y hy (NC.deps_done x hx y.owner htr)
            · intro i hi c' hc' src' hsrc'
              rcases List.mem_cons.mp hi with rfl | hi'
              · rw [hconn] at hc'
                injection hc' with hcc
                subst hcc
                rw [hsrc] at hsrc'
                injection hsrc' with hss
                subst hss
                exact IC.mono NC.self_mem
              · exact IC.srcs_done i hi' c' hc' src' hsrc'
    · rename_i hconn
      split at h
      · exact absurd h (by simp)
      · rename_i ls vs σb hrec
        simp only [Option.some.injEq, Prod.mk.injEq] at h
        obtain ⟨hL, hv, hσ⟩ := h
        subst hL; subst hv; subst hσ
        have IC := ih n σ G ls vs σb
          (fun i hi => hins i (List.mem_cons_of_mem _ hi)) hfuel hn hcl hG hrec
        refine ⟨IC.mono, IC.owners_new, IC.owners_reach, IC.closed,
          IC.deps_done, IC.ord, ?_⟩
        intro i hi c' hc' src hsrc
        rcases List.mem_cons.mp hi with rfl | hi'
        · rw [hconn] at hc'
          cases hc'
        · exact IC.srcs_done i hi' c' hc' src hsrc

theorem evalNode_ok {κ : Type} (b : Backend) (fx : Fx κ)
    (hkeys : ∀ p ∈ fx.nm, p.2.id = p.1)
    (hdefs : ∀ p ∈ fx.nm, (fx.catalog p.2.definitionId).isSome = true)
    (rank : String → Nat)
    (hrank : ∀ a c, directDepB fx.nm fx.cm a c = true → rank c < rank a) :
    ∀ (fuel : Nat) (n : Node) (σ : GenCtx) (G : Finset String) (L : List Stmt)
      (σ' : GenCtx), unproc fx.nm σ + 1 ≤ fuel →
      jsMapGet fx.nm n.id = some n →
      HClosedG fx.nm fx.cm σ.processed G →
      (∀ g ∈ G, TransDep fx.nm fx.cm g n.id) →
      evalNode b fx fuel n σ = some (L, σ') →
      NodeConcl fx.nm fx.cm n σ σ' L G := by
  intro fuel
  induction fuel with
  | zero =>
    intro n σ G L σ' hfuel _ _ _ _
    exact absurd hfuel (Nat.not_succ_le_zero _)
  | succ fuel ihf =>
    intro n σ G L σ' hfuel hn hcl hG h
    rw [evalNode] at h
    split at h
    · rename_i hmem
      simp only [Option.some.injEq, Prod.mk.injEq] at h
      obtain ⟨hL, hσ⟩ := h
      subst hL; subst hσ
      refine ⟨Finset.Subset.refl _, hmem, ?_, ?_, hcl, ?_, List.Pairwise.nil⟩
      · intro s hs; exact absurd hs (List.not_mem_nil s)
      · intro s hs; exact absurd hs (List.not_mem_nil s)
      · intro s hs; exact absurd hs (List.not_mem_nil s)
    · rename_i hmem
      have hins : σ.processed ⊆ (insert n.id σ.processed : Finset String) :=
        Finset.subset_insert _ _
      split at h
      · rename_i hcatn
        have hd := hdefs (n.id, n) (mapGet_mem _ _ _ hn)
        rw [hcatn] at hd
        cases hd
      · rename_i defn hcat
        simp only at h
        rcases hin : evalInputsF (evalNode b fx fuel) fx b n n.inputs
            { processed := insert n.id σ.processed, counter := σ.counter,
              outputVars := σ.outputVars } with _ | r2
        · rw [hin] at h
          exact absurd h (by simp)
        · obtain ⟨lines, inputValues, σ₂⟩ := r2
          rw [hin] at h
          simp only at h
          have hnk : n.id ∈ keysFinset fx.nm := mem_keysFinset_of_get _ _ _ hn
          have hlt : unproc fx.nm
              { σ with processed := insert n.id σ.processed } < unproc fx.nm σ :=
            unproc_insert_lt fx.nm σ n.id hnk hmem
          have hfuel₁ : unproc fx.nm
              { processed := insert n.id σ.processed, counter := σ.counter,
                outputVars := σ.outputVars } + 1 ≤ fuel := by
            have : unproc fx.nm
                { σ with processed := insert n.id σ.processed } = unproc fx.nm
                { processed := insert n.id σ.processed, counter := σ.counter,
                  outputVars := σ.outputVars } := rfl
            omega
          have hcl₁ : HClosedG fx.nm fx.cm
              (insert n.id σ.processed : Finset String) (insert n.id G) := by
            intro w hw hwni m hdep
            have hwn : w ≠ n.id := fun he => hwni (he ▸ Finset.mem_insert_self _ _)
            have hw' : w ∈ σ.processed := by
              rcases Finset.mem_insert.mp hw with he | h'
              · exact absurd he hwn
              · exact h'
            have hwG : w ∉ G := fun hg => hwni (Finset.mem_insert_of_mem hg)
            rcases hcl w hw' hwG m hdep with h' | h'
            · exact Or.inl (Finset.mem_insert_of_mem h')
            · exact Or.inr (Finset.mem_insert_of_mem h')
          have IC := evalInputsF_ok b fx hkeys fuel ihf n.inputs n
            { processed := insert n.id σ.processed, counter := σ.counter,
              outputVars := σ.outputVars } G lines inputValues σ₂
            (fun i hi => hi) hfuel₁ hn hcl₁ hG hin
          have hself₂ : n.id ∈ σ₂.processed := IC.mono (Finset.mem_insert_self _ _)
          have hmono₂ : σ.processed ⊆ σ₂.processed := hins.trans IC.mono
          have hbase : ∀ m, directDepB fx.nm fx.cm n.id m = true →
              m ∈ σ₂.processed := by
            intro m hdep
            obtain ⟨inp, hinp, c, hfind, hcf, src, hsrc⟩ :=
              directDepB_elim fx.nm fx.cm n.id m n hn hdep
            have hsid : src.id = m := hkeys (m, src) (mapGet_mem _ _ _ hsrc)
            have hdone := IC.srcs_done inp hinp c hfind src (by rw [hcf]; exact hsrc)
            rw [hsid] at hdone
            exact hdone
          have hchain : ∀ m, TransDep fx.nm fx.cm n.id m → m ∈ σ₂.processed :=
            chain_closed fx.nm fx.cm rank hrank σ₂.processed G n.id hG
              IC.closed hbase
          have hclosed₂ : HClosedG fx.nm fx.cm σ₂.processed G := by
            intro w hw hwG m hdep
            by_cases hwn : w = n.id
            · subst hwn
              exact Or.inl (hbase m hdep)
            · have hwni : w ∉ insert n.id G := by
                rw [Finset.mem_insert]
                rintro (he | hg)
                · exact hwn he
                · exact hwG hg
              rcases IC.closed w hw hwni m hdep with h' | h'
              · exact Or.inl h'
              · rcases Finset.mem_insert.mp h' with rfl | hg
                · exact Or.inl hself₂
                · exact Or.inr hg
          have hirr : ¬ TransDep fx.nm fx.cm n.id n.id :=
            no_self_transDep _ _ rank hrank n.id
          have hassemble : ∀ (own : List Stmt) (σf : GenCtx),
              (∀ s ∈ own, s.owner = n.id) → σf.processed = σ₂.processed →
              NodeConcl fx.nm fx.cm n σ σf (lines ++ own) G := by
            intro own σf hown hproc
            refine ⟨?_, ?_, ?_, ?_, ?_, ?_, ?_⟩
            · rw [hproc]; exact hmono₂
            · rw [hproc]; exact hself₂
            · intro s hs
              rcases List.mem_append.mp hs with h1 | h2
              · exact fun hm => IC.owners_new s h1 (hins hm)
              · rw [hown s h2]; exact hmem
            · intro s hs
              rcases List.mem_append.mp hs with h1 | h2
              · exact Or.inr (IC.owners_reach s h1)
              · exact Or.inl (hown s h2)
            · rw [hproc]; exact hclosed₂
            · intro s hs m htr
              rw [hproc]
              rcases List.mem_append.mp hs with h1 | h2
              · exact IC.deps_done s h1 m htr
              · rw [hown s h2] at htr
                exact hchain m htr
            · unfold OrdSpec
              rw [List.pairwise_append]
              refine ⟨IC.ord, ordSpec_const fx.nm fx.cm n.id own hown hirr, ?_⟩
              intro x hx y hy htr
              rw [hown y hy] at htr
              exact hirr ((IC.owners_reach x hx).trans htr)
          split at h
          · simp only [Option.some.injEq, Prod.mk.injEq] at h
            obtain ⟨hL, hσ⟩ := h
            subst hL; subst hσ
            refine hassemble _ σ₂ ?_ rfl
            intro s hs
            rw [List.mem_singleton] at hs
            subst hs
            rfl
          · split at h
            · split at h
              · exact absurd h (by simp)
              · split at h
                · exact absurd h (by simp)
                · simp only [Option.some.injEq, Prod.mk.injEq] at h
                  obtain ⟨hL, hσ⟩ := h
                  subst hL; subst hσ
                  refine hassemble _ _ ?_ rfl
                  intro s hs
                  rw [List.mem_singleton] at hs
                  subst hs
                  rfl
            · split at h
              · simp only [Option.some.injEq, Prod.mk.injEq] at h
                obtain ⟨hL, hσ⟩ := h
                subst hL; subst hσ
                refine hassemble _ _ ?_ rfl
                intro s hs
                rw [List.mem_singleton] at hs
                subst hs
                rfl
              · simp only [Option.some.injEq, Prod.mk.injEq] at h
                obtain ⟨hL, hσ⟩ := h
                subst hL; subst hσ
                have := hassemble []
                  { processed := σ₂.processed, counter := σ₂.counter,
                    outputVars := jsMapSet σ₂.outputVars n.id [] }
                  (fun s hs => absurd hs (List.not_mem_nil s)) rfl
                rw [List.append_nil] at this
                exact this
              · simp only [Option.some.injEq, Prod.mk.injEq] at h
                obtain ⟨hL, hσ⟩ := h
                subst hL; subst hσ
                refine hassemble _ _ ?_ rfl
                exact emitOutputs_owner_all b n.id _ _ _ _ _

/-- C4 (amended): for every graph whose node ids are duplicate-free, whose
node definitions are all present in the catalog, and whose connection
dependency relation is acyclic (witnessed by a rank function that strictly
decreases along direct dependencies), the emitted main body is in
dependency-first order — no binding statement precedes a binding statement
of a node it transitively depends on (first conjunct).  Moreover a node's
inputs are resolved by the single left-to-right traversal `evalInputsF` of
its input-declaration list, and the generated single-output call's argument
list is exactly that traversal's value list joined with `", "` — so source
evaluation order and argument order both follow input declaration order
(second conjunct).  The catalog-completeness hypothesis is necessary: see
`claim4_counterexample` for an acyclic graph with a sink whose body is out
of dependency-first order when a reachable node's definition is missing. -/
theorem claim4_dependency_order {κ : Type} (b : Backend)
    (catalog : String → Option (NodeDef κ)) (nodes : List Node)
    (conns : List Connection)
    (hids : (nodes.map (fun n => n.id)).Nodup)
    (hdefs : ∀ n ∈ nodes, (catalog n.definitionId).isSome = true)
    (rank : String → Nat)
    (hrank : ∀ a c, directDepB (buildFx catalog nodes conns).nm
      (buildFx catalog nodes conns).cm a c = true → rank c < rank a)
    (L : List Stmt) (hL : generateBody b catalog nodes conns = some L) :
    L.Pairwise (fun x y => ¬ TransDep (buildFx catalog nodes conns).nm
      (buildFx catalog nodes conns).cm x.owner y.owner) ∧
    (∀ (fuel : Nat) (n : Node) (σ : GenCtx) (defn : NodeDef κ)
      (out : SocketDef) (L' : List Stmt) (σ' : GenCtx),
      n.id ∉ σ.processed →
      (buildFx catalog nodes conns).catalog n.definitionId = some defn →
      n.definitionId ≠ "output_color" →
      defn.customUI ≠ some "colorPicker" →
      defn.outputs = [out] →
      evalNode b (buildFx catalog nodes conns) (fuel + 1) n σ = some (L', σ') →
      ∃ pre vals σ₂,
        evalInputsF (evalNode b (buildFx catalog nodes conns) fuel)
          (buildFx catalog nodes conns) b n n.inputs
          { processed := insert n.id σ.processed, counter := σ.counter,
            outputVars := σ.outputVars } = some (pre, vals, σ₂) ∧
        L' = pre ++ [⟨n.id, b.bindLine (b.typeStr out.type)
          ("v" ++ toString (σ₂.counter + 1))
          ("node_" ++ stripNodeUnderscore n.id ++ "(" ++
            String.intercalate ", " vals ++ ")")⟩]) := by
  constructor
  · unfold generateBody at hL
    split at hL
    · simp only [Option.some.injEq] at hL
      rw [← hL]
      exact List.Pairwise.nil
    · rename_i outputNode hfind
      rcases heval : evalNode b (buildFx catalog nodes conns) (nodes.length + 1)
          outputNode initCtx with _ | r
      · rw [heval] at hL
        exact absurd hL (by simp)
      · obtain ⟨L0, σ'⟩ := r
        rw [heval] at hL
        simp only [Option.map_some', Option.some.injEq] at hL
        rw [← hL]
        have houtmem : outputNode ∈ nodes := by
          unfold findOutputNode at hfind
          exact List.mem_of_find?_eq_some hfind
        have hkeys' : ∀ p ∈ (buildFx catalog nodes conns).nm, p.2.id = p.1 :=
          fun p hp => ((jsMapFromList_mem (fun (n : Node) => n.id) nodes p hp).1).symm
        have hdefs' : ∀ p ∈ (buildFx catalog nodes conns).nm,
            ((buildFx catalog nodes conns).catalog p.2.definitionId).isSome = true :=
          fun p hp => hdefs p.2 (jsMapFromList_mem (fun (n : Node) => n.id) nodes p hp).2
        have hfuel : unproc (buildFx catalog nodes conns).nm initCtx + 1 ≤
            nodes.length + 1 := Nat.add_le_add_right (unproc_init_le nodes) 1
        have hn : jsMapGet (buildFx catalog nodes conns).nm outputNode.id =
            some outputNode :=
          jsMapGet_fromList_nodup (fun (n : Node) => n.id) nodes hids outputNode houtmem
        have hcl0 : HClosedG (buildFx catalog nodes conns).nm
            (buildFx catalog nodes conns).cm initCtx.processed ∅ := by
          intro w hw
          exact absurd hw (Finset.not_mem_empty w)
        have hG0 : ∀ g ∈ (∅ : Finset String),
            TransDep (buildFx catalog nodes conns).nm
              (buildFx catalog nodes conns).cm g outputNode.id :=
          fun g hg => absurd hg (Finset.not_mem_empty g)
        exact (evalNode_ok b (buildFx catalog nodes conns) hkeys' hdefs' rank
          hrank (nodes.length + 1) outputNode initCtx ∅ L0 σ' hfuel hn hcl0
          hG0 heval).ord
  · intro fuel n σ defn out L' σ' hnot hcat hne hpick hout heval
    rw [evalNode] at heval
    split at heval
    · rename_i hmem
      exact absurd hmem hnot
    · rename_i hmem
      split at heval
      · rename_i hcn
        rw [hcat] at hcn
        cases hcn
      · rename_i defn' hcd
        rw [hcat] at hcd
        injection hcd with hde
        subst hde
        simp only at heval
        rcases hin : evalInputsF
            (evalNode b (buildFx catalog nodes conns) fuel)
            (buildFx catalog nodes conns) b n n.inputs
            { processed := insert n.id σ.processed, counter := σ.counter,
              outputVars := σ.outputVars } with _ | r2
        · rw [hin] at heval
          exact absurd heval (by simp)
        · obtain ⟨pre, vals, σ₂⟩ := r2
          rw [hin] at heval
          simp only at heval
          split at heval
          · rename_i hoc
            exact absurd (by simpa using hoc) hne
          · split at heval
            · rename_i hcp
              exact absurd (by simpa using hcp) hpick
            · rw [hout] at heval
              simp only [Option.some.injEq, Prod.mk.injEq] at heval
              obtain ⟨hl, hs⟩ := heval
              exact ⟨pre, vals, σ₂, rfl, hl.symm⟩

/-- C4 counterexample sink node `s` (definition `output_color`), fed on
`Color` by `n` and on `Alpha` by `m`. -/
def c4sink : Node :=
  { id := "s", definitionId := "output_color",
    inputs := [⟨"sc", "s", "Color", .color, .input, none⟩,
      ⟨"sa", "s", "Alpha", .float, .input, none⟩],
    outputs := [], values := [] }

/-- Node `n` (definition `dA`), fed by `x` — so `n` transitively depends on
`x` and, through it, on `m`. -/
def c4n : Node :=
  { id := "n", definitionId := "dA",
    inputs := [⟨"ni", "n", "i", .vec3, .input, none⟩],
    outputs := [⟨"no", "n", "o", .vec3, .output, none⟩], values := [] }

/-- Node `x`, whose definition id `missing` has no catalog entry: the
resolver marks it visited and returns without descending to its inputs. -/
def c4x : Node :=
  { id := "x", definitionId := "missing",
    inputs := [⟨"xi", "x", "i", .float, .input, none⟩],
    outputs := [⟨"xo", "x", "o", .vec3, .output, none⟩], values := [] }

/-- Node `m` (definition `dB`), feeding both `x` and the sink's `Alpha`. -/
def c4m : Node :=
  { id := "m", definitionId := "dB", inputs := [],
    outputs := [⟨"mo", "m", "o", .float, .output, none⟩], values := [] }

/-- The C4 node list. -/
def c4nodes : List Node := [c4sink, c4n, c4x, c4m]

/-- The C4 connections: `n → s.Color`, `x → n`, `m → x`, `m → s.Alpha`. -/
def c4conns : List Connection :=
  [⟨"c1", "n", "no", "s", "sc"⟩, ⟨"c2", "x", "xo", "n", "ni"⟩,
   ⟨"c3", "m", "mo", "x", "xi"⟩, ⟨"c4", "m", "mo", "s", "sa"⟩]

/-- The C4 catalog: every definition present except `x`'s (`missing`). -/
def c4cat : String → Option (NodeDef String)
  | "output_color" => some
      { inputs := [⟨"Color", .color, none⟩, ⟨"Alpha", .float, none⟩],
        outputs := [], code := "" }
  | "dA" => some
      { inputs := [⟨"i", .vec3, none⟩], outputs := [⟨"o", .vec3, none⟩],
        code := "" }
  | "dB" => some
      { inputs := [], outputs := [⟨"o", .float, none⟩], code := "" }
  | _ => none

/-- The node map of the C4 graph. -/
def c4nm : List (String × Node) := (buildFx c4cat c4nodes c4conns).nm

/-- The connection map of the C4 graph. -/
def c4cm : List (String × Connection) := (buildFx c4cat c4nodes c4conns).cm

/-- A rank witnessing that the C4 graph is acyclic: every direct dependency
strictly decreases it. -/
def c4rank : String → Nat
  | "s" => 3
  | "n" => 2
  | "x" => 1
  | _ => 0

/-- The body the WGSL generator emits for the C4 graph: `n`'s binding comes
first, then `m`'s, then the sink line — even though `n` transitively
depends on `m` (via `x`). -/
def c4body : List Stmt :=
  [⟨"n", "  let v1: vec3f = node_n(vec3f(0.0, 0.0, 0.0));"⟩,
   ⟨"m", "  let v2: f32 = node_m();"⟩,
   ⟨"s", "  let finalColor = vec4f(v1, v2);"⟩]

/-- C4 counterexample to the claim as stated: an acyclic graph (explicit
rank function) with duplicate-free ids and a sink node whose emitted body
is *not* in dependency-first order.  Node `x` sits between `n` and `m` but
its definition is missing from the catalog, so the depth-first resolver
marks `x` visited and returns without evaluating `m`; `m` is then evaluated
later via the sink's `Alpha` input, and its binding lands *after* that of
its transitive dependent `n`.  The kernel checks the emitted body and the
dependency chain `n → x → m` concretely. -/
theorem claim4_counterexample :
    (c4nodes.map (fun n => n.id)).Nodup ∧
    (∃ n ∈ c4nodes, n.definitionId = "output_color") ∧
    (∀ a c, directDepB c4nm c4cm a c = true → c4rank c < c4rank a) ∧
    generateBody wgslBackend c4cat c4nodes c4conns = some c4body ∧
    TransDep c4nm c4cm "n" "m" ∧
    ¬ c4body.Pairwise (fun x y => ¬ TransDep c4nm c4cm x.owner y.owner) := by
  have hd1 : directDepB c4nm c4cm "n" "x" = true := by decide
  have hd2 : directDepB c4nm c4cm "x" "m" = true := by decide
  have htd : TransDep c4nm c4cm "n" "m" :=
    Relation.TransGen.tail (Relation.TransGen.single hd1) hd2
  refine ⟨by decide, ⟨c4sink, by decide, rfl⟩, ?_, by decide, htd, ?_⟩
  · intro a c h
    have hk := directDepB_mem_keys c4nm c4cm a c h
    have hke : c4nm.map Prod.fst = ["s", "n", "x", "m"] := by decide
    rw [hke] at hk
    obtain ⟨ha, hc⟩ := hk
    simp only [List.mem_cons, List.not_mem_nil, or_false] at ha hc
    rcases ha with rfl | rfl | rfl | rfl <;> rcases hc with rfl | rfl | rfl | rfl <;>
      revert h <;> decide
  · intro hp
    unfold c4body at hp
    have hpair := (List.pairwise_cons.mp hp).1
      ⟨"m", "  let v2: f32 = node_m();"⟩ (List.mem_cons_self _ _)
    exact hpair htd

/-- Witness sink node for the amended C4 theorem. -/
def c4wsink : Node :=
  { id := "w", definitionId := "output_color",
    inputs := [⟨"wc", "w", "Color", .color, .input, none⟩,
      ⟨"wa", "w", "Alpha", .float, .input, none⟩],
    outputs := [], values := [] }

/-- Witness catalog: only the sink definition. -/
def c4wcat : String → Option (NodeDef String)
  | "output_color" => some
      { inputs := [⟨"Color", .color, none⟩, ⟨"Alpha", .float, none⟩],
        outputs := [], code := "" }
  | _ => none

/-- Witness for the amended C4 theorem at a concrete one-node graph: all
hypotheses hold (duplicate-free ids, complete catalog, constant rank —
there are no dependencies), the body is computed by the kernel, and the
theorem yields its dependency-first ordering. -/
theorem claim4_witness :
    generateBody wgslBackend c4wcat [c4wsink] [] =
      some [⟨"w", "  let finalColor = vec4f(vec3f(0.0, 0.0, 0.0), 0.0);"⟩] ∧
    ([(⟨"w", "  let finalColor = vec4f(vec3f(0.0, 0.0, 0.0), 0.0);"⟩ : Stmt)]).Pairwise
      (fun x y => ¬ TransDep (buildFx c4wcat [c4wsink] []).nm
        (buildFx c4wcat [c4wsink] []).cm x.owner y.owner) :=
  ⟨by decide,
   (claim4_dependency_order wgslBackend c4wcat [c4wsink] [] (by decide)
      (by decide) (fun _ => 0)
      (by
        intro a c h
        have hk := directDepB_mem_keys (buildFx c4wcat [c4wsink] []).nm
          (buildFx c4wcat [c4wsink] []).cm a c h
        have hke : (buildFx c4wcat [c4wsink] []).nm.map Prod.fst = ["w"] := by
          decide
        rw [hke] at hk
        obtain ⟨ha, hc⟩ := hk
        simp only [List.mem_cons, List.not_mem_nil, or_false] at ha hc
        subst ha
        subst hc
        revert h
        decide)
      _ (by decide)).1⟩

end WebGLNode
